import Mathlib

/-!
Verification development for the CLIProxyAPI request-execution and
credential-selection core.  Each definition is a shallow embedding of the
corresponding Go function; the file then settles the spec claims as theorems.

Conventions used throughout:
* Go runes are modelled as `Nat` codepoints, Go byte slices as `List Nat`.
* Go `time.Time` is modelled as an `Int` count of nanoseconds, matching the
  resolution used by `time.Duration` comparisons in the source.
* Go `int`/`int64` are modelled as `Int` (the source never relies on overflow
  in the code under consideration).
* External Unicode tables (`unicode.ToLower`, `unicode.IsLetter`,
  `unicode.IsDigit`) and external codecs (`base64.RawURLEncoding`,
  `encoding/json` struct unmarshalling) are abstracted as function parameters:
  every theorem below is proved for all instantiations of these collaborators.
-/

/-! ## JWT claim validation (internal/util/token.go) -/

/-- Time-relevant fields of `CodexClaim` (token.go).  Only `exp`, `iat` and
`nbf` are consulted by `Valid()`; the remaining identity fields are carried
opaquely as `payload` so that `CheckToken` can return them unchanged. -/
structure CodexClaim where
  exp : Int
  iat : Int
  nbf : Int
  deriving Repr, DecidableEq

/-- Result flags accumulated in the `jwt.ValidationError` bitmask built by
`CodexClaim.Valid` (token.go lines 44-71). -/
structure JwtValidationError where
  expired : Bool
  issuedAt : Bool
  notValidYet : Bool
  deriving Repr, DecidableEq

/-- Go `verifyExp` (token.go lines 207-212): an `exp` of zero passes when the
claim is not required; otherwise the (already skewed) `now` must not exceed
`exp`. -/
def verifyExp (exp now : Int) (required : Bool) : Bool :=
  if exp = 0 then !required else decide (now ≤ exp)

/-- Go `verifyIat` (token.go lines 214-219). -/
def verifyIat (iat now : Int) (required : Bool) : Bool :=
  if iat = 0 then !required else decide (now ≥ iat)

/-- Go `verifyNbf` (token.go lines 232-237); defined for completeness even
though `CodexClaim.VerifyNotBefore` never calls it. -/
def verifyNbf (nbf now : Int) (required : Bool) : Bool :=
  if nbf = 0 then !required else decide (now ≥ nbf)

/-- Go `CodexClaim.VerifyExpiresAt` (token.go lines 81-83). -/
def CodexClaim.VerifyExpiresAt (c : CodexClaim) (cmp : Int) (req : Bool) : Bool :=
  verifyExp c.exp cmp req

/-- Go `CodexClaim.VerifyIssuedAt` (token.go lines 87-89). -/
def CodexClaim.VerifyIssuedAt (c : CodexClaim) (cmp : Int) (req : Bool) : Bool :=
  verifyIat c.iat cmp req

/-- Go `CodexClaim.VerifyNotBefore` (token.go lines 99-101): unconditionally
true in the source. -/
def CodexClaim.VerifyNotBefore (_ : CodexClaim) (_ : Int) (_ : Bool) : Bool :=
  true

/-- Go `CodexClaim.Valid` (token.go lines 44-71).  `now` is the value of
`jwt.TimeFunc().Unix()`; the source then adds 10000 seconds before comparing
with the time claims.  Returns `none` for a valid claim set and the error
flag record otherwise. -/
def CodexClaim.Valid (c : CodexClaim) (now : Int) : Option JwtValidationError :=
  let skewed := now + 10000
  let e : JwtValidationError :=
    { expired := !(c.VerifyExpiresAt skewed false)
      issuedAt := !(c.VerifyIssuedAt skewed false)
      notValidYet := !(c.VerifyNotBefore skewed false) }
  if e.expired = false ∧ e.issuedAt = false ∧ e.notValidYet = false then none
  else some e

/-- Whether `CodexClaim.Valid` reports the token as expired (the
`jwt.ValidationErrorExpired` bit of the returned error). -/
def codexExpiredFlag (c : CodexClaim) (now : Int) : Bool :=
  match c.Valid now with
  | none => false
  | some e => e.expired

/-! ### CheckToken (token.go lines 276-314)

`strings.Split(tokenString, ".")` is embedded as `splitDot` on `List Char`.
The base64url decoder and the two JSON unmarshallers are abstract
collaborators; a `none` result models the corresponding Go error return. -/

/-- Go `strings.Split(s, ".")` specialised to the single-character separator
used by `CheckToken`. -/
def splitDot : List Char → List (List Char)
  | [] => [[]]
  | c :: cs =>
    if c = '.' then [] :: splitDot cs
    else
      match splitDot cs with
      | [] => [[c]]
      | t :: ts => (c :: t) :: ts

/-- Dummy token constructed by `CheckToken` on success: header object, decoded
claims, and the `Valid` field the source hard-codes to `true`. -/
structure JwtToken (H : Type) where
  header : H
  claims : CodexClaim
  valid : Bool
  deriving Repr, DecidableEq

/-- Go `CheckToken` (token.go lines 276-314).  `b64decode` stands for
`base64.RawURLEncoding.DecodeString`, `unmarshalClaims` for
`json.Unmarshal` into `*CodexClaim`, `unmarshalHeader` for `json.Unmarshal`
into the header map, and `now` for `jwt.TimeFunc().Unix()` used inside
`claims.Valid()`.  Note the function never inspects the third (signature)
part. -/
def CheckToken {H : Type} (b64decode : List Char → Option (List Nat))
    (unmarshalClaims : List Nat → Option CodexClaim)
    (unmarshalHeader : List Nat → Option H)
    (now : Int) (tokenString : List Char) : Except String (JwtToken H) :=
  match splitDot tokenString with
  | [part0, part1, _part2] =>
    match b64decode part1 with
    | none => .error "base64 payload decode error"
    | some payloadBytes =>
      match unmarshalClaims payloadBytes with
      | none => .error "claims unmarshal error"
      | some claims =>
        match claims.Valid now with
        | some _ => .error "claims invalid"
        | none =>
          match b64decode part0 with
          | none => .error "failed to decode header"
          | some headerBytes =>
            match unmarshalHeader headerBytes with
            | none => .error "failed to unmarshal header"
            | some header => .ok { header := header, claims := claims, valid := true }
  | _ => .error "invalid JWT token format"

/-! ## Text normalization and message hashing (sticky_selector.go) -/

/-- Go `unicode.IsSpace`: the Unicode White_Space property, an explicit
finite set of codepoints. -/
def isGoSpace (r : Nat) : Bool :=
  decide (r = 9 ∨ r = 10 ∨ r = 11 ∨ r = 12 ∨ r = 13 ∨ r = 32 ∨ r = 133 ∨ r = 160 ∨
    r = 5760 ∨ (8192 ≤ r ∧ r ≤ 8202) ∨ r = 8232 ∨ r = 8233 ∨ r = 8239 ∨ r = 8287 ∨
    r = 12288)

/-- UTF-8 encoding of a codepoint, as written by Go's
`strings.Builder.WriteRune` for valid runes. -/
def utf8Encode (r : Nat) : List Nat :=
  if r < 128 then [r]
  else if r < 2048 then [192 + r / 64, 128 + r % 64]
  else if r < 65536 then [224 + r / 4096, 128 + (r / 64) % 64, 128 + r % 64]
  else [240 + r / 262144, 128 + (r / 4096) % 64, 128 + (r / 64) % 64, 128 + r % 64]

/-- Byte length of a rune list under UTF-8, mirroring Go's `b.Len()` on a
`strings.Builder` holding those runes. -/
def utf8ByteLen (l : List Nat) : Nat :=
  (l.map fun r => (utf8Encode r).length).sum

/-- FNV-1a 64-bit offset basis (hash/fnv). -/
def fnvOffset64 : Nat := 14695981039346656037

/-- FNV-1a 64-bit prime (hash/fnv). -/
def fnvPrime64 : Nat := 1099511628211

/-- FNV-1a 64-bit over a byte sequence, with explicit 64-bit wraparound. -/
def fnv1a64 (bytes : List Nat) : Nat :=
  bytes.foldl (fun h b => ((h ^^^ b % 256) * fnvPrime64) % (2 ^ 64)) fnvOffset64

/-- Go `hash64` (sticky_selector.go lines 97-101; named `hash64Go` here because the plain name exists upstream): FNV-1a-64 of the string's
UTF-8 bytes. -/
def hash64Go (s : List Nat) : Nat :=
  fnv1a64 (s.map utf8Encode).flatten

/-- Go `strings.TrimSpace` on a rune list. -/
def goTrim (s : List Nat) : List Nat :=
  ((s.dropWhile isGoSpace).reverse.dropWhile isGoSpace).reverse

/-- Go `minMessageRuneLen` (sticky_selector.go line 340). -/
def minMessageRuneLen : Nat := 16

/-- The rune loop of `normalizeText` (sticky_selector.go lines 444-465).
State: `prevSpace`, the letters-and-digits counter `textRunes`, and the
builder contents `acc`.  Whitespace runs collapse to one space; NUL and
U+FEFF are skipped; the loop stops once the builder holds 4096 bytes or
more, checked after each non-space rune is written. -/
def normLoop (isLetter isDigit : Nat → Bool) :
    List Nat → Bool → Nat → List Nat → List Nat × Nat
  | [], _, cnt, acc => (acc, cnt)
  | r :: rs, prevSpace, cnt, acc =>
    if isGoSpace r then
      if prevSpace then normLoop isLetter isDigit rs true cnt acc
      else normLoop isLetter isDigit rs true cnt (acc ++ [32])
    else
      if r = 0 ∨ r = 65279 then normLoop isLetter isDigit rs false cnt acc
      else
        let cnt' := if isLetter r || isDigit r then cnt + 1 else cnt
        let acc' := acc ++ [r]
        if 4096 ≤ utf8ByteLen acc' then (acc', cnt')
        else normLoop isLetter isDigit rs false cnt' acc'

/-- Go `normalizeText` (sticky_selector.go lines 435-471).  `lowerRune`
stands for `unicode.ToLower` (applied runewise by `strings.ToLower`),
`isLetter`/`isDigit` for `unicode.IsLetter`/`unicode.IsDigit`.  Returns the
empty list for texts whose letter-and-digit count stays below
`minMessageRuneLen`. -/
def normalizeText (lowerRune : Nat → Nat) (isLetter isDigit : Nat → Bool)
    (s : List Nat) : List Nat :=
  let t := (goTrim s).map lowerRune
  if t = [] then []
  else
    let res := normLoop isLetter isDigit t false 0 []
    if res.2 < minMessageRuneLen then [] else goTrim res.1

/-- Letters-and-digits count of the normalized form of `s`, i.e. the final
value of the `textRunes` counter in `normalizeText`. -/
def normAlnumCount (lowerRune : Nat → Nat) (isLetter isDigit : Nat → Bool)
    (s : List Nat) : Nat :=
  (normLoop isLetter isDigit ((goTrim s).map lowerRune) false 0 []).2

/-- Collapse every maximal whitespace run to a single space; when the
incoming `prevSpace` flag is set, a leading run is dropped entirely. -/
def collapseFrom : Bool → List Nat → List Nat
  | _, [] => []
  | p, r :: rs =>
    if isGoSpace r then
      if p then collapseFrom true rs else 32 :: collapseFrom true rs
    else r :: collapseFrom false rs

/-- Canonical form capturing the equivalence "differ only in letter case,
leading or trailing whitespace, or the lengths of interior whitespace
runs": trim, lowercase runewise, then collapse whitespace runs. -/
def canonText (lowerRune : Nat → Nat) (s : List Nat) : List Nat :=
  collapseFrom false ((goTrim s).map lowerRune)

/-- A collapsed list is empty exactly when the input is, provided no leading
run is being dropped. -/
theorem collapseFrom_false_eq_nil (l : List Nat) :
    collapseFrom false l = [] ↔ l = [] := by
  cases l with
  | nil => simp [collapseFrom]
  | cons r rs =>
    constructor
    · intro hcontra
      by_cases hs : isGoSpace r = true <;> simp [collapseFrom, hs] at hcontra
    · intro hcontra
      exact absurd hcontra (List.cons_ne_nil r rs)

/-- The rune loop of `normalizeText` is invariant under collapsing whitespace
runs of its input: runs are collapsed on the fly anyway. -/
theorem normLoop_collapseFrom (isLetter isDigit : Nat → Bool) :
    ∀ (t : List Nat) (p : Bool) (cnt : Nat) (acc : List Nat),
    normLoop isLetter isDigit t p cnt acc
      = normLoop isLetter isDigit (collapseFrom p t) p cnt acc := by
  intro t
  induction t with
  | nil => intro p cnt acc; rfl
  | cons r rs ih =>
    intro p cnt acc
    by_cases hs : isGoSpace r = true
    · cases p with
      | true =>
        simp only [collapseFrom, hs, if_pos rfl, normLoop, if_true]
        exact ih true cnt acc
      | false =>
        simp only [collapseFrom, hs, if_true, if_false, normLoop, Bool.false_eq_true]
        exact ih true cnt (acc ++ [32])
    · by_cases hz : r = 0 ∨ r = 65279
      · simp only [collapseFrom, hs, if_false, normLoop, Bool.false_eq_true, if_pos hz]
        exact ih false cnt acc
      · simp only [collapseFrom, hs, if_false, normLoop, Bool.false_eq_true, if_neg hz]
        by_cases hcap : 4096 ≤ utf8ByteLen (acc ++ [r])
      
        · simp only [if_pos hcap]
        · simp only [if_neg hcap]
          exact ih false _ _

/-- The part of `normalizeText` downstream of trimming, lowercasing and
whitespace collapsing; `normalizeText` factors through `canonText` via this
function. -/
def normalizeCanon (isLetter isDigit : Nat → Bool) (c : List Nat) : List Nat :=
  if c = [] then []
  else
    let res := normLoop isLetter isDigit c false 0 []
    if res.2 < minMessageRuneLen then [] else goTrim res.1

/-- Factoring theorem: `normalizeText` depends on its input only through the
trimmed, lowercased, run-collapsed canonical form. -/
theorem normalizeText_eq_canon (lowerRune : Nat → Nat) (isLetter isDigit : Nat → Bool)
    (s : List Nat) :
    normalizeText lowerRune isLetter isDigit s
      = normalizeCanon isLetter isDigit (canonText lowerRune s) := by
  unfold normalizeText normalizeCanon canonText
  by_cases h : (goTrim s).map lowerRune = []
  · rw [if_pos h, h]
    simp [collapseFrom]
  · have h2 : ¬ collapseFrom false ((goTrim s).map lowerRune) = [] := by
      rw [collapseFrom_false_eq_nil]; exact h
    rw [if_neg h, if_neg h2, normLoop_collapseFrom]

/-- Runes of a Lean string literal, for witnesses. -/
def strRunes (s : String) : List Nat := s.data.map Char.toNat

/-- ASCII lowercasing, a concrete instantiation of `unicode.ToLower` used by
witnesses. -/
def asciiLower (r : Nat) : Nat := if 65 ≤ r ∧ r ≤ 90 then r + 32 else r

/-- ASCII letter test, a concrete instantiation of `unicode.IsLetter`. -/
def asciiLetter (r : Nat) : Bool :=
  decide ((65 ≤ r ∧ r ≤ 90) ∨ (97 ≤ r ∧ r ≤ 122))

/-- ASCII digit test, a concrete instantiation of `unicode.IsDigit`. -/
def asciiDigit (r : Nat) : Bool := decide (48 ≤ r ∧ r ≤ 57)

/-- C5: for any two input texts with the same canonical form — that is,
texts that differ only in letter case, leading/trailing whitespace, or the
lengths of interior Unicode-whitespace runs — `normalizeText` produces the
same normalized string, and therefore their message hashes
(FNV-1a-64 of the normalized text, `hash64`) are equal.  Proved for every
instantiation of the Unicode lower/letter/digit tables. -/
theorem claim_C5_hash_stability (lowerRune : Nat → Nat) (isLetter isDigit : Nat → Bool)
    (s1 s2 : List Nat) (h : canonText lowerRune s1 = canonText lowerRune s2) :
    normalizeText lowerRune isLetter isDigit s1
      = normalizeText lowerRune isLetter isDigit s2 ∧
    hash64Go (normalizeText lowerRune isLetter isDigit s1)
      = hash64Go (normalizeText lowerRune isLetter isDigit s2) := by
  have e : normalizeText lowerRune isLetter isDigit s1
      = normalizeText lowerRune isLetter isDigit s2 := by
    rw [normalizeText_eq_canon, normalizeText_eq_canon, h]
  exact ⟨e, by rw [e]⟩

/-- Witness for C5 at concrete texts differing in case and whitespace. -/
theorem claim_C5_hash_stability_witness :
    canonText asciiLower (strRunes "  Please   SUMMARIZE the Document 42")
      = canonText asciiLower (strRunes "please summarize the document 42") ∧
    normalizeText asciiLower asciiLetter asciiDigit
        (strRunes "  Please   SUMMARIZE the Document 42")
      = normalizeText asciiLower asciiLetter asciiDigit
        (strRunes "please summarize the document 42") :=
  ⟨by decide, (claim_C5_hash_stability asciiLower asciiLetter asciiDigit
      (strRunes "  Please   SUMMARIZE the Document 42")
      (strRunes "please summarize the document 42") (by decide)).1⟩

/-- The expired bit reported by `CodexClaim.Valid` equals the negated
`verifyExp` check at the skewed clock. -/
theorem codexExpiredFlag_eq (c : CodexClaim) (now : Int) :
    codexExpiredFlag c now = !(verifyExp c.exp (now + 10000) false) := by
  cases hexp : verifyExp c.exp (now + 10000) false <;>
    cases hiat : verifyIat c.iat (now + 10000) false <;>
      simp [codexExpiredFlag, CodexClaim.Valid, CodexClaim.VerifyExpiresAt,
        CodexClaim.VerifyIssuedAt, CodexClaim.VerifyNotBefore, hexp, hiat]

/-- C8: `CodexClaim.Valid` adds 10000 seconds to the current Unix time
before checking `exp`: for a claim set with nonzero `exp` the expired flag
is reported exactly when `exp < now + 10000`, and a claim set with
`exp = 0` is never reported expired. -/
theorem claim_C8_valid_skew (c : CodexClaim) (now : Int) :
    codexExpiredFlag c now = true ↔ (c.exp ≠ 0 ∧ c.exp < now + 10000) := by
  rw [codexExpiredFlag_eq]
  unfold verifyExp
  by_cases h : c.exp = 0
  · simp [h]
  · simp only [if_neg h, Bool.not_eq_true']
    constructor
    · intro hlt
      refine ⟨h, ?_⟩
      have := of_decide_eq_false hlt
      omega
    · intro hlt
      have hnle : ¬ (now + 10000 ≤ c.exp) := by omega
      simp [hnle]

/-! ### Structure of CheckToken results -/

/-- The body of `CheckToken` once the token has split into exactly three
parts; the third part (the signature) does not occur. -/
def checkTokenParts {H : Type} (b64decode : List Char → Option (List Nat))
    (unmarshalClaims : List Nat → Option CodexClaim)
    (unmarshalHeader : List Nat → Option H)
    (now : Int) (part0 part1 : List Char) : Except String (JwtToken H) :=
  match b64decode part1 with
  | none => .error "base64 payload decode error"
  | some payloadBytes =>
    match unmarshalClaims payloadBytes with
    | none => .error "claims unmarshal error"
    | some claims =>
      match claims.Valid now with
      | some _ => .error "claims invalid"
      | none =>
        match b64decode part0 with
        | none => .error "failed to decode header"
        | some headerBytes =>
          match unmarshalHeader headerBytes with
          | none => .error "failed to unmarshal header"
          | some header => .ok { header := header, claims := claims, valid := true }

/-- Splitting on a dot after a dot-free chunk peels off that chunk. -/
theorem splitDot_append (h : List Char) (rest : List Char) (hh : '.' ∉ h) :
    splitDot (h ++ '.' :: rest) = h :: splitDot rest := by
  induction h with
  | nil => simp [splitDot]
  | cons c cs ih =>
    have hc : c ≠ '.' := fun e => hh (e ▸ List.mem_cons_self c cs)
    have hcs : '.' ∉ cs := fun e => hh (List.mem_cons_of_mem c e)
    simp only [List.cons_append, splitDot, if_neg hc, List.append_eq, ih hcs]

/-- Splitting a dot-free string yields that string alone. -/
theorem splitDot_no_dot (s : List Char) (hs : '.' ∉ s) : splitDot s = [s] := by
  induction s with
  | nil => rfl
  | cons c cs ih =>
    have hc : c ≠ '.' := fun e => hs (e ▸ List.mem_cons_self c cs)
    have hcs : '.' ∉ cs := fun e => hs (List.mem_cons_of_mem c e)
    simp only [splitDot, if_neg hc, ih hcs]

/-- Assembled three-part JWT string `header.payload.signature`. -/
def jwt3 (h p sig : List Char) : List Char := h ++ '.' :: (p ++ '.' :: sig)

/-- A three-part token is processed by `checkTokenParts` on its first two
parts only. -/
theorem CheckToken_eq_parts {H : Type} (b64decode : List Char → Option (List Nat))
    (unmarshalClaims : List Nat → Option CodexClaim)
    (unmarshalHeader : List Nat → Option H) (now : Int)
    (h p sig : List Char) (hh : '.' ∉ h) (hp : '.' ∉ p) (hs : '.' ∉ sig) :
    CheckToken b64decode unmarshalClaims unmarshalHeader now (jwt3 h p sig)
      = checkTokenParts b64decode unmarshalClaims unmarshalHeader now h p := by
  have hsplit : splitDot (jwt3 h p sig) = [h, p, sig] := by
    unfold jwt3
    rw [splitDot_append h _ hh, splitDot_append p _ hp, splitDot_no_dot sig hs]
  unfold CheckToken checkTokenParts
  rw [hsplit]

/-- Success characterization of `checkTokenParts`: the call returns a token
exactly when payload and header decode and unmarshal and the claims pass
the time check, and the returned token is then fully determined. -/
theorem checkTokenParts_ok_iff {H : Type} (b64decode : List Char → Option (List Nat))
    (unmarshalClaims : List Nat → Option CodexClaim)
    (unmarshalHeader : List Nat → Option H) (now : Int) (h p : List Char)
    (t : JwtToken H) :
    checkTokenParts b64decode unmarshalClaims unmarshalHeader now h p = .ok t ↔
      (∃ pb c hb hd, b64decode p = some pb ∧ unmarshalClaims pb = some c ∧
        c.Valid now = none ∧ b64decode h = some hb ∧ unmarshalHeader hb = some hd ∧
        t = { header := hd, claims := c, valid := true }) := by
  unfold checkTokenParts
  cases hpb : b64decode p with
  | none => simp [hpb]
  | some pb =>
    cases hc : unmarshalClaims pb with
    | none => simp [hpb, hc]
    | some c =>
      cases hv : c.Valid now with
      | some e => simp [hpb, hc, hv]
      | none =>
        cases hhb : b64decode h with
        | none => simp [hpb, hc, hv, hhb]
        | some hb =>
          cases hhd : unmarshalHeader hb with
          | none => simp [hpb, hc, hv, hhb, hhd]
          | some hd =>
            simp only [hpb, hc, hv, hhb, hhd]
            constructor
            · intro hok
              refine ⟨pb, c, hb, hd, rfl, hc, hv, rfl, hhd, ?_⟩
              cases hok
              rfl
            · rintro ⟨pb2, c2, hb2, hd2, e1, e2, _e3, e4, e5, ht⟩
              cases e1
              cases e4
              rw [hc] at e2
              rw [hhd] at e5
              cases e2
              cases e5
              rw [ht]

/-- C10: `CheckToken` never verifies the token signature.  For a token made
of three dot-free parts: the result is identical for any two signature
parts; a returned token always carries `Valid = true`; and the call
succeeds exactly when the payload base64-decodes and unmarshals, the
decoded claims pass the time-based `Valid()` check, and the header
base64-decodes and unmarshals.  Any input that does not split into exactly
three parts is rejected with a format error. -/
theorem claim_C10_check_token {H : Type} (b64decode : List Char → Option (List Nat))
    (unmarshalClaims : List Nat → Option CodexClaim)
    (unmarshalHeader : List Nat → Option H) (now : Int)
    (h p sig sig' : List Char)
    (hh : '.' ∉ h) (hp : '.' ∉ p) (hs : '.' ∉ sig) (hs' : '.' ∉ sig') :
    (CheckToken b64decode unmarshalClaims unmarshalHeader now (jwt3 h p sig)
      = CheckToken b64decode unmarshalClaims unmarshalHeader now (jwt3 h p sig')) ∧
    (∀ t : JwtToken H,
      CheckToken b64decode unmarshalClaims unmarshalHeader now (jwt3 h p sig) = .ok t →
      t.valid = true) ∧
    ((∃ t : JwtToken H,
        CheckToken b64decode unmarshalClaims unmarshalHeader now (jwt3 h p sig) = .ok t) ↔
      (∃ pb c hb hd, b64decode p = some pb ∧ unmarshalClaims pb = some c ∧
        c.Valid now = none ∧ b64decode h = some hb ∧ unmarshalHeader hb = some hd)) ∧
    (∀ tok : List Char, (splitDot tok).length ≠ 3 →
      CheckToken b64decode unmarshalClaims unmarshalHeader now tok
        = .error "invalid JWT token format") := by
  rw [CheckToken_eq_parts b64decode unmarshalClaims unmarshalHeader now h p sig hh hp hs,
    CheckToken_eq_parts b64decode unmarshalClaims unmarshalHeader now h p sig' hh hp hs']
  refine ⟨rfl, ?_, ?_, ?_⟩
  · intro t hok
    obtain ⟨pb, c, hb, hd, _, _, _, _, _, ht⟩ :=
      (checkTokenParts_ok_iff b64decode unmarshalClaims unmarshalHeader now h p t).mp hok
    rw [ht]
  · constructor
    · rintro ⟨t, hok⟩
      obtain ⟨pb, c, hb, hd, h1, h2, h3, h4, h5, _⟩ :=
        (checkTokenParts_ok_iff b64decode unmarshalClaims unmarshalHeader now h p t).mp hok
      exact ⟨pb, c, hb, hd, h1, h2, h3, h4, h5⟩
    · rintro ⟨pb, c, hb, hd, h1, h2, h3, h4, h5⟩
      exact ⟨{ header := hd, claims := c, valid := true },
        (checkTokenParts_ok_iff b64decode unmarshalClaims unmarshalHeader now h p _).mpr
          ⟨pb, c, hb, hd, h1, h2, h3, h4, h5, rfl⟩⟩
  · intro tok hlen
    unfold CheckToken
    cases hsp : splitDot tok with
    | nil => rfl
    | cons a l =>
      cases l with
      | nil => rfl
      | cons b l2 =>
        cases l2 with
        | nil => rfl
        | cons d l3 =>
          cases l3 with
          | nil => exact absurd (by rw [hsp]; rfl) hlen
          | cons e l4 => rfl

/-- Witness for C10: a malformed (dot-free) token is rejected with the
format error; the theorem is applied at concrete parts and oracles. -/
theorem claim_C10_check_token_witness :
    CheckToken (fun _ => some []) (fun _ => some ⟨0, 0, 0⟩)
      (fun _ => (some () : Option Unit)) 0 ['n', 'o', 'd', 'o', 't']
      = .error "invalid JWT token format" :=
  (claim_C10_check_token (fun _ => some []) (fun _ => some ⟨0, 0, 0⟩)
    (fun _ => (some () : Option Unit)) 0 ['h'] ['p'] ['s'] ['x']
    (by decide) (by decide) (by decide) (by decide)).2.2.2
    ['n', 'o', 'd', 'o', 't'] (by decide)

/-! ## Message index (sticky_selector.go lines 135-330, part_001)

The in-process index keeps one association table per scope; Go's
`map[uint64]*msgBinding` is embedded as an association list with unique
keys, and the (implementation-defined) map iteration order of the source
becomes the list order, a deterministic refinement. -/

/-- Go `msgBinding` (sticky_selector.go lines 147-151). -/
structure MsgBinding where
  authID : String
  count : Int
  lastSeen : Int
  deriving Repr, DecidableEq

/-- Go `Auth` restricted to the fields the selector reads (`ID`,
`Disabled`); `Clone` is the identity under value semantics. -/
structure Auth where
  id : String
  disabled : Bool
  deriving Repr, DecidableEq

/-- One scope's table: Go `map[uint64]*msgBinding`. -/
abbrev ScopeTable := List (Nat × MsgBinding)

/-- Go `indexMaxPerScope` (sticky_selector.go line 166). -/
def indexMaxPerScope : Nat := 100000

/-- Go `indexTTL` (line 167): six hours in nanoseconds. -/
def indexTTL : Int := 21600000000000

/-- Go `indexScanGC` (line 168). -/
def indexScanGC : Nat := 4096

/-- Whitespace test on a character, reusing the Go White_Space set. -/
def isSpaceChar (c : Char) : Bool := isGoSpace c.toNat

/-- Go `strings.TrimSpace` on a Lean string (executable; the library
`String.trim` does not reduce in the kernel). -/
def goTrimStr (s : String) : String :=
  ⟨((s.data.dropWhile isSpaceChar).reverse.dropWhile isSpaceChar).reverse⟩

/-- Per-hash update performed by the in-memory `Record` (lines 239-259):
create on miss; increment and touch on the same auth; on a conflicting auth
flip ownership only when the stored count is already ≤ 0, otherwise decay
the count by one (never below zero) without touching `lastSeen`. -/
def recordOne (now : Int) (authID : String) : Option MsgBinding → MsgBinding
  | some b =>
    if b.authID = authID then { b with count := b.count + 1, lastSeen := now }
    else if b.count ≤ 0 then { authID := authID, count := 1, lastSeen := now }
    else
      let c := b.count - 1
      { b with count := if c < 0 then 0 else c }
  | none => { authID := authID, count := 1, lastSeen := now }

/-- Insert or update one hash in a scope table (the loop body of `Record`). -/
def tableInsert (now : Int) (authID : String) (t : ScopeTable) (h : Nat) : ScopeTable :=
  if (t.lookup h).isSome then
    t.map fun kv => if kv.1 = h then (h, recordOne now authID (some kv.2)) else kv
  else t ++ [(h, recordOne now authID none)]

/-- First GC scan of `Record` (lines 264-273): delete bindings older than
`indexTTL`, stopping after `indexScanGC` removals. -/
def gcScanTTL (now : Int) : ScopeTable → Nat → ScopeTable
  | [], _ => []
  | kv :: rest, cnt =>
    if indexTTL < now - kv.2.lastSeen then
      if indexScanGC ≤ cnt + 1 then rest
      else gcScanTTL now rest (cnt + 1)
    else kv :: gcScanTTL now rest cnt

/-- Second GC scan (lines 274-287): when still over the cap, delete bindings
older than `indexTTL / 2`, stopping after `indexScanGC` removals. -/
def gcScanHalf (now : Int) : ScopeTable → Nat → ScopeTable
  | [], _ => []
  | kv :: rest, cnt =>
    if kv.2.lastSeen < now - indexTTL / 2 then
      if indexScanGC ≤ cnt + 1 then rest
      else gcScanHalf now rest (cnt + 1)
    else kv :: gcScanHalf now rest cnt

/-- The full GC pass of `Record`: TTL scan, then the half-TTL scan if the
table still exceeds the cap. -/
def gcPass (now : Int) (table : ScopeTable) : ScopeTable :=
  let t1 := gcScanTTL now table 0
  if indexMaxPerScope < t1.length then gcScanHalf now t1 0 else t1

/-- Go `messageIndex` (lines 153-157): scope tables plus the `ops` counter. -/
structure MessageIndex where
  byKey : List (String × ScopeTable)
  ops : Nat
  deriving Repr, DecidableEq

/-- Store a scope's table back into the index map. -/
def setScope (m : List (String × ScopeTable)) (scope : String) (t : ScopeTable) :
    List (String × ScopeTable) :=
  if (m.lookup scope).isSome then
    m.map fun kv => if kv.1 = scope then (scope, t) else kv
  else m ++ [(scope, t)]

/-- Go `messageIndex.Record` (lines 228-290): guards, per-hash updates, `ops`
increment, then the GC pass when `ops` hits a multiple of 1024 or the table
exceeds `indexMaxPerScope`. -/
def MessageIndex.Record (idx : MessageIndex) (now : Int) (scope : String)
    (msgHashes : List Nat) (authID : String) : MessageIndex :=
  if scope = "" ∨ authID = "" ∨ msgHashes = [] then idx
  else
    let table := (idx.byKey.lookup scope).getD []
    let table1 := msgHashes.foldl (tableInsert now authID) table
    let ops' := idx.ops + 1
    let table2 :=
      if ops' % 1024 = 0 ∨ indexMaxPerScope < table1.length then gcPass now table1
      else table1
    { byKey := setScope idx.byKey scope table2, ops := ops' }

/-- Score bump for one auth id (the `scores[b.AuthID]++` of `SuggestAuth`);
scores are kept in first-appearance order. -/
def bumpScore (scores : List (String × Nat)) (id : String) : List (String × Nat) :=
  if (scores.lookup id).isSome then
    scores.map fun kv => if kv.1 = id then (kv.1, kv.2 + 1) else kv
  else scores ++ [(id, 1)]

/-- Per-auth tallies over the stored bindings for the given hashes
(in-memory `SuggestAuth`, lines 183-189): a hash contributes when its
binding exists and has a nonempty (untrimmed) auth id. -/
def tallyScores (table : ScopeTable) (msgHashes : List Nat) : List (String × Nat) :=
  msgHashes.foldl
    (fun scores h =>
      match table.lookup h with
      | some b => if b.authID ≠ "" then bumpScore scores b.authID else scores
      | none => scores)
    []

/-- Best (id, score) pair under strict improvement, starting from ("", 0) —
the `bestID`/`bestScore` loop of `SuggestAuth` (lines 194-201). -/
def bestOf (scores : List (String × Nat)) : String × Nat :=
  scores.foldl (fun best kv => if best.2 < kv.2 then kv else best) ("", 0)

/-- Coverage threshold of `SuggestAuth` (lines 202-213). -/
def minCover (n : Nat) : Nat :=
  if 9 ≤ n then n / 3
  else if 4 ≤ n then 2
  else if 2 ≤ n then 1
  else 0

/-- Go `messageIndex.SuggestAuth` (lines 173-225). -/
def MessageIndex.SuggestAuth (idx : MessageIndex) (scope : String)
    (msgHashes : List Nat) (auths : List Auth) : Option Auth :=
  if scope = "" ∨ msgHashes = [] then none
  else
    match idx.byKey.lookup scope with
    | none => none
    | some table =>
      let scores := tallyScores table msgHashes
      if scores = [] then none
      else
        let best := bestOf scores
        if best.2 < minCover msgHashes.length then none
        else
          auths.find? fun a => !a.disabled && goTrimStr a.id == goTrimStr best.1

/-- Go `redisMessageIndex.Record` per-key logic (part_001 lines 163-195),
for an `authID` that is already trimmed: increment on the same (trimmed)
stored auth after clamping a negative count to zero; adopt on an empty
binding; otherwise decrement and flip to the new auth once the count
reaches zero, always touching `lastSeen`.  A `none` argument models both a
missing key and the Go zero-value binding read on a failed GET. -/
def redisRecordOne (now : Int) (authID : String) (prev : Option MsgBinding) : MsgBinding :=
  let b := prev.getD { authID := "", count := 0, lastSeen := 0 }
  if goTrimStr b.authID = authID then
    { authID := b.authID, count := (if b.count < 0 then 0 else b.count) + 1, lastSeen := now }
  else if goTrimStr b.authID = "" then
    { authID := authID, count := 1, lastSeen := now }
  else
    let c := b.count - 1
    if c ≤ 0 then { authID := authID, count := 1, lastSeen := now }
    else { authID := b.authID, count := c, lastSeen := now }

/-- Per-auth tallies of the Redis `SuggestAuth` (part_001 lines 95-112):
`fetch` stands for the per-key MGET result, and tallying uses the trimmed
auth id. -/
def redisTally (fetch : Nat → Option MsgBinding) (msgHashes : List Nat) :
    List (String × Nat) :=
  msgHashes.foldl
    (fun scores h =>
      match fetch h with
      | some b =>
        if goTrimStr b.authID ≠ "" then bumpScore scores (goTrimStr b.authID) else scores
      | none => scores)
    []

/-- Go `redisMessageIndex.SuggestAuth` (part_001 lines 81-151) under a
healthy transport: same best-selection, coverage threshold and candidate
check as the memory index, with tallies read through `fetch`. -/
def redisSuggestAuth (scope : String) (msgHashes : List Nat)
    (fetch : Nat → Option MsgBinding) (auths : List Auth) : Option Auth :=
  if scope = "" ∨ msgHashes = [] then none
  else
    let scores := redisTally fetch msgHashes
    if scores = [] then none
    else
      let best := bestOf scores
      if best.2 < minCover msgHashes.length then none
      else
        auths.find? fun a => !a.disabled && goTrimStr a.id == goTrimStr best.1

/-- Sequence of `k` records with `authA` and one with `authB` placed at
position `j` (1-indexed). -/
def voteSeq (authA authB : String) (j k : Nat) : List String :=
  List.replicate (j - 1) authA ++ authB :: List.replicate (k + 1 - j) authA

/-- Iterated per-hash in-memory `Record` steps on one binding. -/
def foldRecMem (now : Int) (seq : List String) (b : Option MsgBinding) :
    Option MsgBinding :=
  seq.foldl (fun acc a => some (recordOne now a acc)) b

/-- Iterated per-key Redis `Record` steps on one binding. -/
def foldRecRedis (now : Int) (seq : List String) (b : Option MsgBinding) :
    Option MsgBinding :=
  seq.foldl (fun acc a => some (redisRecordOne now a acc)) b

/-! ### Majority-vote dynamics of Record -/

/-- Unfolding lemma for one step of the in-memory fold. -/
theorem foldRecMem_cons (now : Int) (x : String) (xs : List String)
    (b : Option MsgBinding) :
    foldRecMem now (x :: xs) b = foldRecMem now xs (some (recordOne now x b)) := rfl

/-- Unfolding lemma for one step of the Redis fold. -/
theorem foldRecRedis_cons (now : Int) (x : String) (xs : List String)
    (b : Option MsgBinding) :
    foldRecRedis now (x :: xs) b = foldRecRedis now xs (some (redisRecordOne now x b)) := rfl

/-- The in-memory fold distributes over list append. -/
theorem foldRecMem_append (now : Int) (l1 l2 : List String) (b : Option MsgBinding) :
    foldRecMem now (l1 ++ l2) b = foldRecMem now l2 (foldRecMem now l1 b) := by
  simp [foldRecMem, List.foldl_append]

/-- The Redis fold distributes over list append. -/
theorem foldRecRedis_append (now : Int) (l1 l2 : List String) (b : Option MsgBinding) :
    foldRecRedis now (l1 ++ l2) b = foldRecRedis now l2 (foldRecRedis now l1 b) := by
  simp [foldRecRedis, List.foldl_append]

/-- A matching auth increments the in-memory binding and touches lastSeen. -/
theorem recordOne_same (now : Int) (a : String) (c t : Int) :
    recordOne now a (some ⟨a, c, t⟩) = ⟨a, c + 1, now⟩ := by
  simp [recordOne]

/-- A conflicting auth with positive count only decays the in-memory
binding, leaving owner and lastSeen unchanged. -/
theorem recordOne_conflict_pos (now : Int) (a : String) (b : MsgBinding)
    (hne : b.authID ≠ a) (hc : 0 < b.count) :
    recordOne now a (some b) = ⟨b.authID, b.count - 1, b.lastSeen⟩ := by
  have h1 : ¬ b.count ≤ 0 := by omega
  have h2 : ¬ b.count - 1 < 0 := by omega
  simp [recordOne, hne, h1, h2]

/-- A conflicting auth that finds the in-memory count already ≤ 0 flips the
binding to the new owner. -/
theorem recordOne_conflict_zero (now : Int) (a : String) (b : MsgBinding)
    (hne : b.authID ≠ a) (hc : b.count ≤ 0) :
    recordOne now a (some b) = ⟨a, 1, now⟩ := by
  simp [recordOne, hne, hc]

/-- Repeated same-auth in-memory records keep the owner. -/
theorem foldRecMem_same_owner (now : Int) (a : String) (m : Nat) :
    ∀ (c t : Int), ∃ c2 t2,
      foldRecMem now (List.replicate m a) (some ⟨a, c, t⟩) = some ⟨a, c2, t2⟩ := by
  induction m with
  | zero => intro c t; exact ⟨c, t, rfl⟩
  | succ m ih =>
    intro c t
    rw [List.replicate_succ, foldRecMem_cons, recordOne_same]
    exact ih (c + 1) now

/-- Repeated same-auth in-memory records add the repetition count. -/
theorem foldRecMem_same_count (now : Int) (a : String) (m : Nat) :
    ∀ (c t : Int), ∃ t2,
      foldRecMem now (List.replicate m a) (some ⟨a, c, t⟩) = some ⟨a, c + m, t2⟩ := by
  induction m with
  | zero => intro c t; exact ⟨t, by simp [foldRecMem]⟩
  | succ m ih =>
    intro c t
    rw [List.replicate_succ, foldRecMem_cons, recordOne_same]
    obtain ⟨t2, h⟩ := ih (c + 1) now
    refine ⟨t2, ?_⟩
    rw [h]
    have e : c + 1 + (m : Int) = c + ((m + 1 : Nat) : Int) := by push_cast; ring
    rw [e]

/-- Starting from no binding, `m ≥ 1` same-auth in-memory records create the
owner with count `m`. -/
theorem foldRecMem_fromNone (now : Int) (a : String) (m : Nat) (hm : 1 ≤ m) :
    ∃ t2, foldRecMem now (List.replicate m a) none = some ⟨a, (m : Int), t2⟩ := by
  obtain ⟨m1, rfl⟩ : ∃ m1, m = m1 + 1 := ⟨m - 1, by omega⟩
  rw [List.replicate_succ, foldRecMem_cons]
  have h1 : recordOne now a none = ⟨a, 1, now⟩ := rfl
  rw [h1]
  obtain ⟨t2, h⟩ := foldRecMem_same_count now a m1 1 now
  refine ⟨t2, ?_⟩
  rw [h]
  have e : (1 : Int) + (m1 : Int) = ((m1 + 1 : Nat) : Int) := by push_cast; ring
  rw [e]

/-- A matching (trimmed) auth increments the Redis binding when the stored
count is nonnegative. -/
theorem redisRecordOne_same (now : Int) (a : String) (c t : Int)
    (ha : goTrimStr a = a) (hc : 0 ≤ c) :
    redisRecordOne now a (some ⟨a, c, t⟩) = ⟨a, c + 1, now⟩ := by
  have h1 : ¬ c < 0 := by omega
  simp [redisRecordOne, ha, h1]

/-- A matching (trimmed) auth always keeps the Redis owner. -/
theorem redisRecordOne_same_owner (now : Int) (a : String) (c t : Int)
    (ha : goTrimStr a = a) :
    ∃ c2, redisRecordOne now a (some ⟨a, c, t⟩) = ⟨a, c2, now⟩ := by
  by_cases h1 : c < 0
  · exact ⟨1, by simp [redisRecordOne, ha, h1]⟩
  · exact ⟨c + 1, by simp [redisRecordOne, ha, h1]⟩

/-- Recording into a missing Redis key creates the binding. -/
theorem redisRecordOne_none (now : Int) (a : String) (ha0 : a ≠ "") :
    redisRecordOne now a none = ⟨a, 1, now⟩ := by
  have h0 : goTrimStr "" = "" := by decide
  simp [redisRecordOne, h0, Ne.symm ha0]

/-- A conflicting auth with count above one decays the Redis binding,
touching lastSeen. -/
theorem redisRecordOne_conflict_pos (now : Int) (a : String) (b : MsgBinding)
    (hne : goTrimStr b.authID ≠ a) (hne0 : goTrimStr b.authID ≠ "")
    (hc : 1 < b.count) :
    redisRecordOne now a (some b) = ⟨b.authID, b.count - 1, now⟩ := by
  have h1 : ¬ b.count - 1 ≤ 0 := by omega
  simp [redisRecordOne, hne, hne0, h1]

/-- A conflicting auth whose decrement reaches zero flips the Redis binding
to the new owner. -/
theorem redisRecordOne_conflict_flip (now : Int) (a : String) (b : MsgBinding)
    (hne : goTrimStr b.authID ≠ a) (hne0 : goTrimStr b.authID ≠ "")
    (hc : b.count ≤ 1) :
    redisRecordOne now a (some b) = ⟨a, 1, now⟩ := by
  have h1 : b.count - 1 ≤ 0 := by omega
  simp [redisRecordOne, hne, hne0, h1]

/-- Repeated same-auth Redis records keep the owner. -/
theorem foldRecRedis_same_owner (now : Int) (a : String) (m : Nat)
    (ha : goTrimStr a = a) :
    ∀ (c t : Int), ∃ c2 t2,
      foldRecRedis now (List.replicate m a) (some ⟨a, c, t⟩) = some ⟨a, c2, t2⟩ := by
  induction m with
  | zero => intro c t; exact ⟨c, t, rfl⟩
  | succ m ih =>
    intro c t
    rw [List.replicate_succ, foldRecRedis_cons]
    obtain ⟨c1, h1⟩ := redisRecordOne_same_owner now a c t ha
    rw [h1]
    exact ih c1 now

/-- Repeated same-auth Redis records add the repetition count when the
stored count is nonnegative. -/
theorem foldRecRedis_same_count (now : Int) (a : String) (m : Nat)
    (ha : goTrimStr a = a) :
    ∀ (c t : Int), 0 ≤ c → ∃ t2,
      foldRecRedis now (List.replicate m a) (some ⟨a, c, t⟩) = some ⟨a, c + m, t2⟩ := by
  induction m with
  | zero => intro c t _; exact ⟨t, by simp [foldRecRedis]⟩
  | succ m ih =>
    intro c t hc
    rw [List.replicate_succ, foldRecRedis_cons, redisRecordOne_same now a c t ha hc]
    obtain ⟨t2, h⟩ := ih (c + 1) now (by omega)
    refine ⟨t2, ?_⟩
    rw [h]
    have e : c + 1 + (m : Int) = c + ((m + 1 : Nat) : Int) := by push_cast; ring
    rw [e]

/-- Starting from no binding, `m ≥ 1` same-auth Redis records create the
owner with count `m`. -/
theorem foldRecRedis_fromNone (now : Int) (a : String) (m : Nat)
    (ha : goTrimStr a = a) (ha0 : a ≠ "") (hm : 1 ≤ m) :
    ∃ t2, foldRecRedis now (List.replicate m a) none = some ⟨a, (m : Int), t2⟩ := by
  obtain ⟨m1, rfl⟩ : ∃ m1, m = m1 + 1 := ⟨m - 1, by omega⟩
  rw [List.replicate_succ, foldRecRedis_cons, redisRecordOne_none now a ha0]
  obtain ⟨t2, h⟩ := foldRecRedis_same_count now a m1 ha 1 now (by omega)
  refine ⟨t2, ?_⟩
  rw [h]
  have e : (1 : Int) + (m1 : Int) = ((m1 + 1 : Nat) : Int) := by push_cast; ring
  rw [e]

/-- Reading the final owner out of a computed binding. -/
theorem exists_owner_iff (v : MsgBinding) (a : String) :
    (∃ b, some v = some b ∧ b.authID = a) ↔ v.authID = a := by
  constructor
  · rintro ⟨b, hb, hba⟩
    cases hb
    exact hba
  · intro h
    exact ⟨v, rfl, h⟩

/-- Final owner of the in-memory binding after `k` records with `authA` and
one with `authB` at position `j`: `authA` wins iff `k ≥ 2` or the `authB`
record is not first. -/
theorem memVote_owner (now : Int) (authA authB : String) (j k : Nat)
    (hAB : authA ≠ authB) (hj : 1 ≤ j) (hjk : j ≤ k + 1) :
    (∃ b, foldRecMem now (voteSeq authA authB j k) none = some b ∧ b.authID = authA)
      ↔ (2 ≤ k ∨ 2 ≤ j) := by
  have hBA : authB ≠ authA := Ne.symm hAB
  obtain ⟨j', rfl⟩ : ∃ j2, j = j2 + 1 := ⟨j - 1, by omega⟩
  cases j' with
  | zero =>
    have hseq : voteSeq authA authB (0 + 1) k = authB :: List.replicate k authA := by
      simp [voteSeq]
    rw [hseq, foldRecMem_cons]
    have h1 : recordOne now authB none = ⟨authB, 1, now⟩ := rfl
    rw [h1]
    cases k with
    | zero =>
      rw [show foldRecMem now (List.replicate 0 authA) (some ⟨authB, 1, now⟩)
          = some ⟨authB, 1, now⟩ from rfl, exists_owner_iff]
      exact iff_of_false hBA (by omega)
    | succ k1 =>
      rw [List.replicate_succ, foldRecMem_cons,
        recordOne_conflict_pos now authA ⟨authB, 1, now⟩ hBA (by norm_num)]
      cases k1 with
      | zero =>
        rw [show foldRecMem now (List.replicate 0 authA) (some ⟨authB, 1 - 1, now⟩)
            = some ⟨authB, 1 - 1, now⟩ from rfl, exists_owner_iff]
        exact iff_of_false hBA (by omega)
      | succ k2 =>
        rw [List.replicate_succ, foldRecMem_cons,
          recordOne_conflict_zero now authA ⟨authB, 1 - 1, now⟩ hBA (by norm_num)]
        obtain ⟨c2, t2, hrest⟩ := foldRecMem_same_owner now authA k2 1 now
        rw [hrest, exists_owner_iff]
        exact iff_of_true rfl (by omega)
  | succ j'' =>
    have hseq : voteSeq authA authB (j'' + 1 + 1) k
        = List.replicate (j'' + 1) authA
          ++ authB :: List.replicate (k - (j'' + 1)) authA := by
      unfold voteSeq
      rw [show j'' + 1 + 1 - 1 = j'' + 1 from by omega,
        show k + 1 - (j'' + 1 + 1) = k - (j'' + 1) from by omega]
    rw [hseq, foldRecMem_append]
    obtain ⟨t', hfn⟩ := foldRecMem_fromNone now authA (j'' + 1) (by omega)
    rw [hfn, foldRecMem_cons,
      recordOne_conflict_pos now authB ⟨authA, ((j'' + 1 : Nat) : Int), t'⟩ hAB
        (by show (0 : Int) < ((j'' + 1 : Nat) : Int); exact_mod_cast Nat.succ_pos j'')]
    obtain ⟨c2, t2, hrest⟩ :=
      foldRecMem_same_owner now authA (k - (j'' + 1)) (((j'' + 1 : Nat) : Int) - 1) t'
    rw [hrest, exists_owner_iff]
    exact iff_of_true rfl (by omega)

/-- Final owner of the Redis binding after `k` records with `authA` and one
with `authB` at position `j`: `authA` wins iff `k ≥ 1` and (`k ≥ 2` or
`j ≠ 2`). -/
theorem redisVote_owner (now : Int) (authA authB : String) (j k : Nat)
    (hAB : authA ≠ authB) (htA : goTrimStr authA = authA)
    (htB : goTrimStr authB = authB) (hA0 : authA ≠ "") (hB0 : authB ≠ "")
    (hj : 1 ≤ j) (hjk : j ≤ k + 1) :
    (∃ b, foldRecRedis now (voteSeq authA authB j k) none = some b ∧ b.authID = authA)
      ↔ (1 ≤ k ∧ (2 ≤ k ∨ j ≠ 2)) := by
  have hBA : authB ≠ authA := Ne.symm hAB
  obtain ⟨j', rfl⟩ : ∃ j2, j = j2 + 1 := ⟨j - 1, by omega⟩
  cases j' with
  | zero =>
    have hseq : voteSeq authA authB (0 + 1) k = authB :: List.replicate k authA := by
      simp [voteSeq]
    rw [hseq, foldRecRedis_cons, redisRecordOne_none now authB hB0]
    cases k with
    | zero =>
      rw [show foldRecRedis now (List.replicate 0 authA) (some ⟨authB, 1, now⟩)
          = some ⟨authB, 1, now⟩ from rfl, exists_owner_iff]
      exact iff_of_false hBA (by omega)
    | succ k1 =>
      rw [List.replicate_succ, foldRecRedis_cons,
        redisRecordOne_conflict_flip now authA ⟨authB, 1, now⟩
          (by rw [htB]; exact hBA) (by rw [htB]; exact hB0) (by norm_num)]
      obtain ⟨c2, t2, hrest⟩ := foldRecRedis_same_owner now authA k1 htA 1 now
      rw [hrest, exists_owner_iff]
      exact iff_of_true rfl (by omega)
  | succ j'' =>
    cases j'' with
    | zero =>
      -- j = 2 : sequence is authA :: authB :: replicate (k - 1) authA
      have hseq : voteSeq authA authB 2 k
          = authA :: authB :: List.replicate (k - 1) authA := by
        unfold voteSeq
        rw [show (2 : Nat) - 1 = 1 from rfl, show k + 1 - 2 = k - 1 from by omega]
        rfl
      rw [hseq, foldRecRedis_cons, redisRecordOne_none now authA hA0,
        foldRecRedis_cons,
        redisRecordOne_conflict_flip now authB ⟨authA, 1, now⟩
          (by rw [htA]; exact hAB) (by rw [htA]; exact hA0) (by norm_num)]
      cases hk1 : k - 1 with
      | zero =>
        rw [show foldRecRedis now (List.replicate 0 authA) (some ⟨authB, 1, now⟩)
            = some ⟨authB, 1, now⟩ from rfl, exists_owner_iff]
        exact iff_of_false hBA (by omega)
      | succ k2 =>
        rw [List.replicate_succ, foldRecRedis_cons,
          redisRecordOne_conflict_flip now authA ⟨authB, 1, now⟩
            (by rw [htB]; exact hBA) (by rw [htB]; exact hB0) (by norm_num)]
        obtain ⟨c2, t2, hrest⟩ := foldRecRedis_same_owner now authA k2 htA 1 now
        rw [hrest, exists_owner_iff]
        exact iff_of_true rfl (by omega)
    | succ j3 =>
      -- j = j3 + 3 ≥ 3
      have hseq : voteSeq authA authB (j3 + 3) k
          = List.replicate (j3 + 2) authA
            ++ authB :: List.replicate (k - (j3 + 2)) authA := by
        unfold voteSeq
        rw [show j3 + 3 - 1 = j3 + 2 from by omega,
          show k + 1 - (j3 + 3) = k - (j3 + 2) from by omega]
      rw [show j3 + 1 + 1 + 1 = j3 + 3 from by omega, hseq, foldRecRedis_append]
      obtain ⟨t', hfn⟩ := foldRecRedis_fromNone now authA (j3 + 2) htA hA0 (by omega)
      rw [hfn, foldRecRedis_cons,
        redisRecordOne_conflict_pos now authB ⟨authA, ((j3 + 2 : Nat) : Int), t'⟩
          (by rw [htA]; exact hAB) (by rw [htA]; exact hA0)
          (by show (1 : Int) < ((j3 + 2 : Nat) : Int); exact_mod_cast by omega)]
      obtain ⟨c2, t2, hrest⟩ :=
        foldRecRedis_same_owner now authA (k - (j3 + 2)) htA
          (((j3 + 2 : Nat) : Int) - 1) now
      rw [hrest, exists_owner_iff]
      exact iff_of_true rfl (by omega)

/-- Counterexample to C2 as stated: take k = 1 `Record` call with authA
followed by one `Record` call with authB on the same (scope, hash) in the
in-memory index.  The claim requires the binding's AuthID to equal authA
iff k ≥ 2, so here it should differ from authA; in fact the conflicting
record only decays the count to 0 without flipping ownership (and without
updating LastSeen), and the binding still carries AuthID = authA. -/
theorem claim_C2_counterexample :
    ((((({ byKey := [], ops := 0 } : MessageIndex).Record 0 "codex|gpt-5-codex" [7]
        "authA").Record 0 "codex|gpt-5-codex" [7] "authB").byKey.lookup
        "codex|gpt-5-codex").getD []).lookup 7
      = some { authID := "authA", count := 0, lastSeen := 0 } ∧ ¬ 2 ≤ (1 : Nat) := by
  decide

/-- C2 (amended): the per-hash conflict rules differ between the two index
variants.  The in-memory `Record` flips ownership only when a conflicting
call finds the count already ≤ 0 (the decrement itself never flips and does
not touch LastSeen), while the Redis `Record` decrements and flips as soon
as the count reaches 0.  Consequently, after `k` records with authA and one
with authB at position `j` (1-indexed) on the same hash: the in-memory
binding ends owned by authA iff `k ≥ 2` or `j ≥ 2`, and the Redis binding
ends owned by authA iff `k ≥ 1` and (`k ≥ 2` or `j ≠ 2`).  In particular
for `k ≥ 2` both variants end owned by authA in every order, but for
`k = 1` the outcome depends on the order and on the variant, refuting the
claimed "AuthID = authA iff k ≥ 2". -/
theorem claim_C2_amended_vote (now : Int) (authA authB : String) (j k : Nat)
    (hAB : authA ≠ authB) (htA : goTrimStr authA = authA)
    (htB : goTrimStr authB = authB) (hA0 : authA ≠ "") (hB0 : authB ≠ "")
    (hj : 1 ≤ j) (hjk : j ≤ k + 1) :
    ((∃ b, foldRecMem now (voteSeq authA authB j k) none = some b ∧ b.authID = authA)
        ↔ (2 ≤ k ∨ 2 ≤ j)) ∧
    ((∃ b, foldRecRedis now (voteSeq authA authB j k) none = some b ∧ b.authID = authA)
        ↔ (1 ≤ k ∧ (2 ≤ k ∨ j ≠ 2))) :=
  ⟨memVote_owner now authA authB j k hAB hj hjk,
   redisVote_owner now authA authB j k hAB htA htB hA0 hB0 hj hjk⟩

/-- Witness for the amended C2 at j = 2, k = 1. -/
theorem claim_C2_amended_vote_witness :
    ((∃ b, foldRecMem 0 (voteSeq "authA" "authB" 2 1) none = some b ∧ b.authID = "authA")
        ↔ (2 ≤ 1 ∨ 2 ≤ 2)) ∧
    ((∃ b, foldRecRedis 0 (voteSeq "authA" "authB" 2 1) none = some b ∧ b.authID = "authA")
        ↔ (1 ≤ 1 ∧ (2 ≤ 1 ∨ 2 ≠ 2))) :=
  claim_C2_amended_vote 0 "authA" "authB" 2 1 (by decide) (by decide) (by decide)
    (by decide) (by decide) (by omega) (by omega)

/-! ### Garbage collection bounds (C3) -/

/-- Freshness of a table entry relative to `now`: not older than half the
TTL, hence removable by neither GC scan. -/
def freshAt (now : Int) (kv : Nat × MsgBinding) : Prop :=
  now - kv.2.lastSeen ≤ indexTTL / 2

/-- Freshness is decidable, so witnesses can be checked by evaluation. -/
instance (now : Int) (kv : Nat × MsgBinding) : Decidable (freshAt now kv) := by
  unfold freshAt
  infer_instance

/-- The TTL scan removes nothing from a table of fresh entries. -/
theorem gcScanTTL_fresh (now : Int) (t : ScopeTable)
    (hf : ∀ kv ∈ t, freshAt now kv) : ∀ cnt, gcScanTTL now t cnt = t := by
  induction t with
  | nil => intro cnt; rfl
  | cons kv rest ih =>
    intro cnt
    have hkv := hf kv (List.mem_cons_self kv rest)
    have hcond : ¬ indexTTL < now - kv.2.lastSeen := by
      have : indexTTL / 2 ≤ indexTTL := by unfold indexTTL; omega
      unfold freshAt at hkv
      omega
    rw [gcScanTTL, if_neg hcond, ih (fun x hx => hf x (List.mem_cons_of_mem kv hx)) cnt]

/-- The half-TTL scan removes nothing from a table of fresh entries. -/
theorem gcScanHalf_fresh (now : Int) (t : ScopeTable)
    (hf : ∀ kv ∈ t, freshAt now kv) : ∀ cnt, gcScanHalf now t cnt = t := by
  induction t with
  | nil => intro cnt; rfl
  | cons kv rest ih =>
    intro cnt
    have hkv := hf kv (List.mem_cons_self kv rest)
    have hcond : ¬ kv.2.lastSeen < now - indexTTL / 2 := by
      unfold freshAt at hkv
      omega
    rw [gcScanHalf, if_neg hcond, ih (fun x hx => hf x (List.mem_cons_of_mem kv hx)) cnt]

/-- The full GC pass leaves a table of fresh entries unchanged, even when it
exceeds the cap. -/
theorem gcPass_fresh (now : Int) (t : ScopeTable)
    (hf : ∀ kv ∈ t, freshAt now kv) : gcPass now t = t := by
  unfold gcPass
  simp only [gcScanTTL_fresh now t hf 0]
  by_cases hlen : indexMaxPerScope < t.length
  · rw [if_pos hlen]
    exact gcScanHalf_fresh now t hf 0
  · rw [if_neg hlen]

/-- A per-hash record step at time `now` produces a fresh binding whenever
its input binding is fresh (the decay branch keeps the old lastSeen, every
other branch stamps `now`). -/
theorem recordOne_fresh (now : Int) (a : String) (b : Option MsgBinding)
    (hb : ∀ bb, b = some bb → now - bb.lastSeen ≤ indexTTL / 2) :
    now - (recordOne now a b).lastSeen ≤ indexTTL / 2 := by
  have httl : 0 ≤ indexTTL / 2 := by unfold indexTTL; omega
  cases b with
  | none => simp [recordOne]; omega
  | some bb =>
    have hbb := hb bb rfl
    unfold recordOne
    by_cases h1 : bb.authID = a
    · simp [h1]; omega
    · by_cases h2 : bb.count ≤ 0
      · simp [h1, h2]; omega
      · simp [h1, h2]; omega

/-- `tableInsert` preserves table freshness. -/
theorem tableInsert_fresh (now : Int) (a : String) (t : ScopeTable) (h : Nat)
    (hf : ∀ kv ∈ t, freshAt now kv) :
    ∀ kv ∈ tableInsert now a t h, freshAt now kv := by
  intro kv hkv
  unfold tableInsert at hkv
  by_cases hmem : (t.lookup h).isSome
  · rw [if_pos hmem] at hkv
    obtain ⟨kv0, hkv0, hmap⟩ := List.mem_map.mp hkv
    by_cases heq : kv0.1 = h
    · rw [if_pos heq] at hmap
      rw [← hmap]
      unfold freshAt
      exact recordOne_fresh now a (some kv0.2) (fun bb hbb => by cases hbb; exact hf kv0 hkv0)
    · rw [if_neg heq] at hmap
      rw [← hmap]
      exact hf kv0 hkv0
  · rw [if_neg hmem] at hkv
    rcases List.mem_append.mp hkv with hin | hin
    · exact hf kv hin
    · have : kv = (h, recordOne now a none) := List.mem_singleton.mp hin
      rw [this]
      unfold freshAt
      exact recordOne_fresh now a none (fun bb hbb => by cases hbb)

/-- Folding `tableInsert` over any hash list preserves table freshness. -/
theorem foldInsert_fresh (now : Int) (a : String) (hashes : List Nat) :
    ∀ (t : ScopeTable), (∀ kv ∈ t, freshAt now kv) →
      ∀ kv ∈ hashes.foldl (tableInsert now a) t, freshAt now kv := by
  induction hashes with
  | nil => intro t hf kv hkv; exact hf kv hkv
  | cons h rest ih =>
    intro t hf kv hkv
    exact ih (tableInsert now a t h) (tableInsert_fresh now a t h hf) kv hkv

/-- Writing a scope that is present updates it in place. -/
theorem lookup_mapSet (scope : String) (t : ScopeTable) :
    ∀ m : List (String × ScopeTable), (m.lookup scope).isSome →
      (m.map fun kv => if kv.1 = scope then (scope, t) else kv).lookup scope = some t := by
  intro m
  induction m with
  | nil => intro h; simp [List.lookup] at h
  | cons kv rest ih =>
    obtain ⟨k1, v1⟩ := kv
    intro h
    by_cases heq : k1 = scope
    · subst heq
      simp only [List.map_cons, eq_self_iff_true, if_true]
      simp [List.lookup]
    · have hbeq : (scope == k1) = false := beq_eq_false_iff_ne.mpr (fun e => heq e.symm)
      have h2 : (rest.lookup scope).isSome := by
        simpa [List.lookup, hbeq] using h
      simp only [List.map_cons]
      rw [show (if (k1, v1).1 = scope then (scope, t) else (k1, v1)) = (k1, v1) from if_neg heq]
      simp only [List.lookup, hbeq]
      exact ih h2

/-- Writing an absent scope appends it. -/
theorem lookup_appendNew (scope : String) (t : ScopeTable) :
    ∀ m : List (String × ScopeTable), ¬ (m.lookup scope).isSome →
      (m ++ [(scope, t)]).lookup scope = some t := by
  intro m
  induction m with
  | nil => simp [List.lookup]
  | cons kv rest ih =>
    obtain ⟨k1, v1⟩ := kv
    intro h
    by_cases heq : k1 = scope
    · exfalso
      apply h
      subst heq
      simp [List.lookup]
    · have hbeq : (scope == k1) = false := beq_eq_false_iff_ne.mpr (fun e => heq e.symm)
      have h2 : ¬ (rest.lookup scope).isSome := by
        intro hc
        apply h
        simpa [List.lookup, hbeq] using hc
      rw [List.cons_append]
      simp only [List.lookup, hbeq]
      exact ih h2

/-- Looking up the scope just written by `setScope` returns the new table. -/
theorem lookup_setScope (m : List (String × ScopeTable)) (scope : String)
    (t : ScopeTable) : (setScope m scope t).lookup scope = some t := by
  unfold setScope
  by_cases hmem : (m.lookup scope).isSome
  · rw [if_pos hmem]
    exact lookup_mapSet scope t m hmem
  · rw [if_neg hmem]
    exact lookup_appendNew scope t m hmem

/-- A table of `n` distinct fresh bindings (keys `0..n-1`, lastSeen 0). -/
def freshTable : Nat → ScopeTable
  | 0 => []
  | n + 1 => (n, { authID := "authA", count := 1, lastSeen := 0 }) :: freshTable n

/-- Size of the fresh table. -/
theorem freshTable_length (n : Nat) : (freshTable n).length = n := by
  induction n with
  | zero => rfl
  | succ n ih => simp [freshTable, ih]

/-- Keys at or beyond `n` are absent from the fresh table. -/
theorem freshTable_lookup_ge (n k : Nat) (h : n ≤ k) : (freshTable n).lookup k = none := by
  induction n with
  | zero => rfl
  | succ n ih =>
    have hne : (k == n) = false := beq_eq_false_iff_ne.mpr (by omega)
    simp only [freshTable, List.lookup, hne]
    exact ih (by omega)

/-- All bindings of the fresh table are fresh at time 0. -/
theorem freshTable_fresh (n : Nat) : ∀ kv ∈ freshTable n, freshAt 0 kv := by
  induction n with
  | zero => intro kv h; cases h
  | succ n ih =>
    intro kv h
    rcases List.mem_cons.mp h with h1 | h2
    · subst h1
      unfold freshAt indexTTL
      norm_num
    · exact ih kv h2

/-- Unfolding of `Record` on valid arguments. -/
theorem MessageIndex.Record_eq (idx : MessageIndex) (now : Int) (scope : String)
    (msgHashes : List Nat) (authID : String)
    (hs : scope ≠ "") (ha : authID ≠ "") (hh : msgHashes ≠ []) :
    idx.Record now scope msgHashes authID =
      { byKey := setScope idx.byKey scope
          (if (idx.ops + 1) % 1024 = 0 ∨
              indexMaxPerScope < (msgHashes.foldl (tableInsert now authID)
                ((idx.byKey.lookup scope).getD [])).length
           then gcPass now (msgHashes.foldl (tableInsert now authID)
                ((idx.byKey.lookup scope).getD []))
           else msgHashes.foldl (tableInsert now authID)
                ((idx.byKey.lookup scope).getD [])),
        ops := idx.ops + 1 } := by
  unfold MessageIndex.Record
  rw [if_neg (by simp [hs, ha, hh])]

/-- After a `Record` call on a scope whose bindings are all fresher than
TTL/2, the scope table is exactly the insertion result: the GC pass removes
nothing. -/
theorem record_fresh_insert (idx : MessageIndex) (now : Int) (scope : String)
    (msgHashes : List Nat) (authID : String)
    (hs : scope ≠ "") (ha : authID ≠ "") (hh : msgHashes ≠ [])
    (hf : ∀ kv ∈ (idx.byKey.lookup scope).getD [], freshAt now kv) :
    ((idx.Record now scope msgHashes authID).byKey.lookup scope).getD []
      = msgHashes.foldl (tableInsert now authID) ((idx.byKey.lookup scope).getD []) := by
  rw [MessageIndex.Record_eq idx now scope msgHashes authID hs ha hh]
  have hf1 : ∀ kv ∈ msgHashes.foldl (tableInsert now authID)
      ((idx.byKey.lookup scope).getD []), freshAt now kv :=
    foldInsert_fresh now authID msgHashes _ hf
  by_cases hcond : (idx.ops + 1) % 1024 = 0 ∨
      indexMaxPerScope < (msgHashes.foldl (tableInsert now authID)
        ((idx.byKey.lookup scope).getD [])).length
  · rw [if_pos hcond, gcPass_fresh now _ hf1, lookup_setScope, Option.getD_some]
  · rw [if_neg hcond, lookup_setScope, Option.getD_some]

/-- C3 (amended): the GC scans remove only bindings older than TTL (first
scan) or TTL/2 (second scan), at most `indexScanGC` each.  Hence for a
`Record` call on a scope whose bindings — old and newly stamped — are all
fresher than TTL/2, the GC pass removes nothing: the resulting scope table
is exactly the insertion result, even when that exceeds the hard cap, so
"after that burst, size ≤ cap" does not hold; the cap bound requires enough
stale bindings. -/
theorem claim_C3_gc_amended (idx : MessageIndex) (now : Int) (scope : String)
    (msgHashes : List Nat) (authID : String)
    (hs : scope ≠ "") (ha : authID ≠ "") (hh : msgHashes ≠ [])
    (hf : ∀ kv ∈ (idx.byKey.lookup scope).getD [], freshAt now kv) :
    ((idx.Record now scope msgHashes authID).byKey.lookup scope).getD []
      = msgHashes.foldl (tableInsert now authID) ((idx.byKey.lookup scope).getD []) :=
  record_fresh_insert idx now scope msgHashes authID hs ha hh hf

/-- Witness for the amended C3 on a one-binding table. -/
theorem claim_C3_gc_amended_witness :
    ((({ byKey := [("codex|m", [(5, ⟨"a", 1, 0⟩)])], ops := 0 } : MessageIndex).Record 0
        "codex|m" [9] "b").byKey.lookup "codex|m").getD []
      = ([9] : List Nat).foldl (tableInsert 0 "b")
          ((([("codex|m", [(5, (⟨"a", 1, 0⟩ : MsgBinding))])] :
            List (String × ScopeTable)).lookup "codex|m").getD []) :=
  claim_C3_gc_amended _ 0 "codex|m" [9] "b" (by decide) (by decide) (by decide)
    (by decide)

/-- Counterexample to C3 as stated: a `Record` call adds one new hash to a
scope table holding 100000 fresh bindings; the table now has 100001 entries,
the size guard fires and the GC pass runs, yet — every binding being
younger than TTL/2 — it removes nothing, leaving the table above the hard
cap of 100000. -/
theorem claim_C3_counterexample :
    ((((⟨[("codex|gpt-5-codex", freshTable 100000)], 0⟩ : MessageIndex).Record 0
        "codex|gpt-5-codex" [100000] "authA").byKey.lookup
        "codex|gpt-5-codex").getD []).length = 100001 ∧
    indexMaxPerScope < 100001 := by
  have hlk0 : (([("codex|gpt-5-codex", freshTable 100000)] :
      List (String × ScopeTable)).lookup "codex|gpt-5-codex").getD []
      = freshTable 100000 := by
    simp [List.lookup]
  have hfr : ∀ kv ∈ (((⟨[("codex|gpt-5-codex", freshTable 100000)], 0⟩ :
      MessageIndex).byKey.lookup "codex|gpt-5-codex").getD []), freshAt 0 kv := by
    intro kv h
    rw [show ((⟨[("codex|gpt-5-codex", freshTable 100000)], 0⟩ :
      MessageIndex).byKey.lookup "codex|gpt-5-codex").getD [] = freshTable 100000 from hlk0] at h
    exact freshTable_fresh 100000 kv h
  constructor
  · rw [record_fresh_insert _ 0 "codex|gpt-5-codex" [100000] "authA"
      (by decide) (by decide) (by decide) hfr]
    have hins : ([100000] : List Nat).foldl (tableInsert 0 "authA")
        ((([("codex|gpt-5-codex", freshTable 100000)] :
          List (String × ScopeTable)).lookup "codex|gpt-5-codex").getD [])
        = freshTable 100000 ++ [(100000, ⟨"authA", 1, 0⟩)] := by
      rw [hlk0, List.foldl_cons, List.foldl_nil]
      unfold tableInsert
      simp only [freshTable_lookup_ge 100000 100000 (le_refl 100000),
        Option.isSome_none, Bool.false_eq_true, if_false]
      rw [show recordOne 0 "authA" none = ⟨"authA", 1, 0⟩ from rfl]
    rw [hins, List.length_append, freshTable_length]
    rfl
  · decide

/-! ### Suggest threshold (C4) -/

/-- Common tail of both `SuggestAuth` variants: empty-tally check, best
selection, coverage threshold, candidate check. -/
def suggestCore (scores : List (String × Nat)) (n : Nat) (auths : List Auth) :
    Option Auth :=
  if scores = [] then none
  else
    let best := bestOf scores
    if best.2 < minCover n then none
    else auths.find? fun a => !a.disabled && goTrimStr a.id == goTrimStr best.1

/-- Tallying against an empty table yields no scores. -/
theorem tallyScores_nil (msgHashes : List Nat) : tallyScores [] msgHashes = [] := by
  unfold tallyScores
  induction msgHashes with
  | nil => rfl
  | cons h rest ih => simp [List.lookup, ih]

/-- The in-memory `SuggestAuth` on valid arguments reduces to the common
core over its tallies. -/
theorem memSuggest_eq_core (idx : MessageIndex) (scope : String)
    (msgHashes : List Nat) (auths : List Auth) (hs : scope ≠ "") (hh : msgHashes ≠ []) :
    idx.SuggestAuth scope msgHashes auths
      = suggestCore (tallyScores ((idx.byKey.lookup scope).getD []) msgHashes)
          msgHashes.length auths := by
  unfold MessageIndex.SuggestAuth
  rw [if_neg (by simp [hs, hh])]
  cases hlk : idx.byKey.lookup scope with
  | none =>
    rw [Option.getD_none, tallyScores_nil]
    rfl
  | some table =>
    rw [Option.getD_some]
    rfl

/-- The Redis `SuggestAuth` on valid arguments reduces to the common core
over its tallies. -/
theorem redisSuggest_eq_core (scope : String) (msgHashes : List Nat)
    (fetch : Nat → Option MsgBinding) (auths : List Auth)
    (hs : scope ≠ "") (hh : msgHashes ≠ []) :
    redisSuggestAuth scope msgHashes fetch auths
      = suggestCore (redisTally fetch msgHashes) msgHashes.length auths := by
  unfold redisSuggestAuth
  rw [if_neg (by simp [hs, hh])]
  rfl

/-- Behaviour of the common suggest core: null below the threshold, and any
returned auth is an enabled candidate matching the best tally's id. -/
theorem suggestCore_spec (scores : List (String × Nat)) (n : Nat) (auths : List Auth) :
    ((bestOf scores).2 < minCover n → suggestCore scores n auths = none) ∧
    (∀ a, suggestCore scores n auths = some a →
      minCover n ≤ (bestOf scores).2 ∧ a ∈ auths ∧ a.disabled = false ∧
      goTrimStr a.id = goTrimStr (bestOf scores).1) ∧
    ((∀ a ∈ auths, a.disabled = false → goTrimStr a.id ≠ goTrimStr (bestOf scores).1) →
      suggestCore scores n auths = none) := by
  refine ⟨?_, ?_, ?_⟩
  · intro hlow
    unfold suggestCore
    by_cases hemp : scores = []
    · rw [if_pos hemp]
    · rw [if_neg hemp, if_pos hlow]
  · intro a hok
    unfold suggestCore at hok
    by_cases hemp : scores = []
    · rw [if_pos hemp] at hok
      cases hok
    · rw [if_neg hemp] at hok
      by_cases hlow : (bestOf scores).2 < minCover n
      · rw [if_pos hlow] at hok
        cases hok
      · rw [if_neg hlow] at hok
        have hmem := List.mem_of_find?_eq_some hok
        have hpred := List.find?_some hok
        rw [Bool.and_eq_true, Bool.not_eq_true', beq_iff_eq] at hpred
        exact ⟨by omega, hmem, hpred.1, hpred.2⟩
  · intro hnone
    unfold suggestCore
    by_cases hemp : scores = []
    · rw [if_pos hemp]
    · rw [if_neg hemp]
      by_cases hlow : (bestOf scores).2 < minCover n
      · rw [if_pos hlow]
      · rw [if_neg hlow]
        apply List.find?_eq_none.mpr
        intro a ha
        rw [Bool.not_eq_true, Bool.and_eq_false_iff]
        by_cases hdis : a.disabled = false
        · right
          rw [beq_eq_false_iff_ne]
          exact hnone a ha hdis
        · left
          have : a.disabled = true := by
            cases hde : a.disabled
            · exact absurd hde hdis
            · rfl
          simp [this]

/-- Best per-auth tally over the in-memory bindings. -/
def memBest (idx : MessageIndex) (scope : String) (msgHashes : List Nat) : String × Nat :=
  bestOf (tallyScores ((idx.byKey.lookup scope).getD []) msgHashes)

/-- Best per-auth tally over the Redis bindings. -/
def redisBest (fetch : Nat → Option MsgBinding) (msgHashes : List Nat) : String × Nat :=
  bestOf (redisTally fetch msgHashes)

/-- C4: for every nonempty scope and hash list, `SuggestAuth` returns null
whenever the best per-auth tally is strictly below the coverage threshold
(`minCover`: n/3 for n ≥ 9, 2 for 4 ≤ n ≤ 8, 1 for 2 ≤ n ≤ 3, 0 below);
when a suggestion is returned, the best tally met the threshold and the
returned auth is a candidate, not disabled, and matches the winning auth id
(up to trimming); and when no enabled candidate matches the winner, null is
returned.  Both the in-memory and Redis variants satisfy this. -/
theorem claim_C4_suggest_threshold (idx : MessageIndex) (scope : String)
    (msgHashes : List Nat) (auths : List Auth) (fetch : Nat → Option MsgBinding)
    (hs : scope ≠ "") (hh : msgHashes ≠ []) :
    ((memBest idx scope msgHashes).2 < minCover msgHashes.length →
      idx.SuggestAuth scope msgHashes auths = none) ∧
    (∀ a, idx.SuggestAuth scope msgHashes auths = some a →
      minCover msgHashes.length ≤ (memBest idx scope msgHashes).2 ∧
      a ∈ auths ∧ a.disabled = false ∧
      goTrimStr a.id = goTrimStr (memBest idx scope msgHashes).1) ∧
    ((∀ a ∈ auths, a.disabled = false →
        goTrimStr a.id ≠ goTrimStr (memBest idx scope msgHashes).1) →
      idx.SuggestAuth scope msgHashes auths = none) ∧
    ((redisBest fetch msgHashes).2 < minCover msgHashes.length →
      redisSuggestAuth scope msgHashes fetch auths = none) ∧
    (∀ a, redisSuggestAuth scope msgHashes fetch auths = some a →
      minCover msgHashes.length ≤ (redisBest fetch msgHashes).2 ∧
      a ∈ auths ∧ a.disabled = false ∧
      goTrimStr a.id = goTrimStr (redisBest fetch msgHashes).1) ∧
    ((∀ a ∈ auths, a.disabled = false →
        goTrimStr a.id ≠ goTrimStr (redisBest fetch msgHashes).1) →
      redisSuggestAuth scope msgHashes fetch auths = none) := by
  have hm := memSuggest_eq_core idx scope msgHashes auths hs hh
  have hr := redisSuggest_eq_core scope msgHashes fetch auths hs hh
  have hcm := suggestCore_spec (tallyScores ((idx.byKey.lookup scope).getD []) msgHashes)
    msgHashes.length auths
  have hcr := suggestCore_spec (redisTally fetch msgHashes) msgHashes.length auths
  refine ⟨?_, ?_, ?_, ?_, ?_, ?_⟩
  · intro hlow
    rw [hm]
    exact hcm.1 hlow
  · intro a hok
    rw [hm] at hok
    exact hcm.2.1 a hok
  · intro hnone
    rw [hm]
    exact hcm.2.2 hnone
  · intro hlow
    rw [hr]
    exact hcr.1 hlow
  · intro a hok
    rw [hr] at hok
    exact hcr.2.1 a hok
  · intro hnone
    rw [hr]
    exact hcr.2.2 hnone

/-- Witness for C4: two hashes, empty index, best tally 0 below threshold 1,
so the suggestion is null. -/
theorem claim_C4_suggest_threshold_witness :
    ({ byKey := [], ops := 0 } : MessageIndex).SuggestAuth "codex|m" [5, 6]
      [⟨"a", false⟩] = none :=
  (claim_C4_suggest_threshold _ "codex|m" [5, 6] [⟨"a", false⟩] (fun _ => none)
    (by decide) (by decide)).1 (by decide)

/-! ## Message-hash extraction and Pick (sticky_selector.go lines 41-95,
344-433)

JSON parsing (`encoding/json`) is a collaborator: `RawReq` carries its
outcome.  Object keys are Lean strings; the textual values that feed
normalization are rune lists. -/

/-- Parsed JSON value, the result of `json.Unmarshal` into `any`. -/
inductive JVal where
  | jnull : JVal
  | jbool : Bool → JVal
  | jnum : Int → JVal
  | jstr : List Nat → JVal
  | jarr : List JVal → JVal
  | jobj : List (String × JVal) → JVal

/-- Go type assertion `.(string)`. -/
def JVal.asString : JVal → Option (List Nat)
  | .jstr s => some s
  | _ => none

/-- The bytes of `opts.OriginalRequest` as seen through `json.Unmarshal`:
empty input and malformed JSON both fail to parse. -/
inductive RawReq where
  | empty : RawReq
  | malformed : RawReq
  | parsed : JVal → RawReq

/-- Text of one content part: `text` when a nonempty string, else `content`
when a nonempty string (lines 379-390 and 404-414). -/
def partText (pm : List (String × JVal)) : Option (List Nat) :=
  let t := ((pm.lookup "text").bind JVal.asString).getD []
  if t ≠ [] then some t
  else
    let c := ((pm.lookup "content").bind JVal.asString).getD []
    if c ≠ [] then some c else none

/-- Texts contributed by one message's `content` value: a string directly,
or the parts of an array (lines 371-392). -/
def contentTexts (c : JVal) : List (List Nat) :=
  match c with
  | .jstr s => [s]
  | .jarr parts =>
    parts.filterMap fun p =>
      match p with
      | .jobj pm => partText pm
      | _ => none
  | _ => []

/-- Texts of one `messages` entry: only objects whose lowercased trimmed
role is empty, "user" or "system" contribute (lines 361-370). -/
def messageTexts (lowerRune : Nat → Nat) (mAny : JVal) : List (List Nat) :=
  match mAny with
  | .jobj mm =>
    let role := (goTrim (((mm.lookup "role").bind JVal.asString).getD [])).map lowerRune
    if role ≠ strRunes "user" ∧ role ≠ strRunes "system" ∧ role ≠ [] then []
    else
      match mm.lookup "content" with
      | some c => contentTexts c
      | none => []
  | _ => []

/-- All candidate texts of a parsed request: the `messages` array when the
key is present (even if not an array), else Responses-style `input`
(lines 359-417). -/
def collectTexts (lowerRune : Nat → Nat) (root : JVal) : List (List Nat) :=
  match root with
  | .jobj m =>
    match m.lookup "messages" with
    | some msgsAny =>
      match msgsAny with
      | .jarr msgs => (msgs.map (messageTexts lowerRune)).flatten
      | _ => []
    | none =>
      match m.lookup "input" with
      | some (.jstr s) => [s]
      | some (.jarr items) =>
        items.filterMap fun it =>
          match it with
          | .jobj mm => partText mm
          | _ => none
      | _ => []
  | _ => []

/-- Deduplication preserving first occurrence (lines 420-431). -/
def dedupGo (seen : List Nat) : List Nat → List Nat
  | [] => []
  | h :: rest => if h ∈ seen then dedupGo seen rest else h :: dedupGo (h :: seen) rest

/-- Hashes collected before deduplication: each collected text is
normalized, dropped when normalization rejects it, and hashed with
FNV-1a-64 (lines 371-417). -/
def rawHashes (lowerRune : Nat → Nat) (isLetter isDigit : Nat → Bool)
    (root : JVal) : List Nat :=
  (collectTexts lowerRune root).filterMap fun t =>
    if normalizeText lowerRune isLetter isDigit t ≠ [] then
      some (hash64Go (normalizeText lowerRune isLetter isDigit t))
    else none

/-- Go `extractMessageHashes` (lines 344-433): empty or malformed input and
non-object roots yield no hashes; otherwise the collected hashes,
deduplicated (the source skips the dedup pass for at most one hash, which
changes nothing). -/
def extractMessageHashes (lowerRune : Nat → Nat) (isLetter isDigit : Nat → Bool)
    (raw : RawReq) : List Nat :=
  match raw with
  | .empty => []
  | .malformed => []
  | .parsed root =>
    match root with
    | .jobj m =>
      if 1 < (rawHashes lowerRune isLetter isDigit (.jobj m)).length then
        dedupGo [] (rawHashes lowerRune isLetter isDigit (.jobj m))
      else rawHashes lowerRune isLetter isDigit (.jobj m)
    | _ => []

/-- Default auth used only to give `List.getD` a fallback; the selector
never returns it because indices are always in range. -/
instance : Inhabited Auth := ⟨⟨"", false⟩⟩

/-- Selector state: per-scope round-robin cursors and the message index
(SmartStickySelector, lines 20-24). -/
structure SelectorState where
  offsets : List (String × Nat)
  idx : MessageIndex

/-- ASCII lowering of a Lean string, modelling `strings.ToLower` on the
ASCII provider/model tags. -/
def goLowerStr (s : String) : String :=
  ⟨s.data.map fun c =>
    if 65 ≤ c.toNat ∧ c.toNat ≤ 90 then Char.ofNat (c.toNat + 32) else c⟩

/-- Go `strings.EqualFold` restricted to ASCII folding. -/
def eqFold (a b : String) : Bool := goLowerStr a == goLowerStr b

/-- The scope key `lower(trim(provider)) + "|" + lower(trim(model))`
(line 53). -/
def scopeOf (provider model : String) : String :=
  goLowerStr (goTrimStr provider) ++ "|" ++ goLowerStr (goTrimStr model)

/-- Pre-filter of `Pick` (lines 43-48): drop nil and disabled entries. -/
def filterAuths (auths : List (Option Auth)) : List Auth :=
  auths.filterMap fun oa =>
    match oa with
    | some a => if !a.disabled then some a else none
    | none => none

/-- Update a round-robin cursor. -/
def setOffset (m : List (String × Nat)) (scope : String) (v : Nat) :
    List (String × Nat) :=
  if (m.lookup scope).isSome then
    m.map fun kv => if kv.1 = scope then (scope, v) else kv
  else m ++ [(scope, v)]

/-- The round-robin fallback of `Pick` (lines 84-94): emit
`filtered[cursor % len]` and advance the per-scope cursor. -/
def pickRoundRobin (scope : String) (filtered : List Auth) (st : SelectorState) :
    Except Unit (Auth × SelectorState) :=
  let cur0 := (st.offsets.lookup scope).getD 0
  let cur := if 0 < filtered.length then cur0 % filtered.length else cur0
  .ok (filtered.getD cur default,
    { st with offsets := setOffset st.offsets scope ((cur + 1) % filtered.length) })

/-- The sticky choice of `Pick` for Codex (lines 58-73): index suggestion
when hashes are present, else a uniformly random candidate (with the
source's defensive bounds check); `none` when no hashes exist. -/
def chosenOf (rand : Nat → Nat) (scope : String) (msgHashes : List Nat)
    (filtered : List Auth) (st : SelectorState) : Option Auth :=
  let c1 := if msgHashes ≠ [] then st.idx.SuggestAuth scope msgHashes filtered else none
  if c1 = none ∧ msgHashes ≠ [] then
    some (filtered.getD
      (if rand filtered.length < filtered.length then rand filtered.length else 0) default)
  else c1

/-- Go `SmartStickySelector.Pick` (lines 41-95).  `rand` models `randIntn`;
the clone on return is the identity under value semantics; errors carry the
`auth_not_found` code as `Except.error`. -/
def SmartStickySelector.Pick (rand : Nat → Nat) (lowerRune : Nat → Nat)
    (isLetter isDigit : Nat → Bool) (provider model : String) (orig : RawReq)
    (auths : List (Option Auth)) (now : Int) (st : SelectorState) :
    Except Unit (Auth × SelectorState) :=
  if filterAuths auths = [] then .error ()
  else if eqFold (goTrimStr provider) "codex" then
    match chosenOf rand (scopeOf provider model)
        (extractMessageHashes lowerRune isLetter isDigit orig) (filterAuths auths) st with
    | some a =>
      .ok (a, { st with idx :=
        (if extractMessageHashes lowerRune isLetter isDigit orig ≠ [] then
          st.idx.Record now (scopeOf provider model)
            (extractMessageHashes lowerRune isLetter isDigit orig) a.id
        else st.idx) })
    | none => pickRoundRobin (scopeOf provider model) (filterAuths auths) st
  else pickRoundRobin (scopeOf provider model) (filterAuths auths) st

/-- Normalization rejects any text whose letters-and-digits count stays
below `minMessageRuneLen`. -/
theorem normalizeText_eq_nil_of_short (lowerRune : Nat → Nat)
    (isLetter isDigit : Nat → Bool) (t : List Nat)
    (h : normAlnumCount lowerRune isLetter isDigit t < minMessageRuneLen) :
    normalizeText lowerRune isLetter isDigit t = [] := by
  unfold normalizeText
  by_cases ht : (goTrim t).map lowerRune = []
  · rw [if_pos ht]
  · rw [if_neg ht]
    show (if (normLoop isLetter isDigit ((goTrim t).map lowerRune) false 0 []).2 <
        minMessageRuneLen then []
      else goTrim (normLoop isLetter isDigit ((goTrim t).map lowerRune) false 0 []).1) = []
    unfold normAlnumCount at h
    rw [if_pos h]

/-- When every collected text is rejected by normalization, extraction
yields no hashes. -/
theorem extract_eq_nil_of_short (lowerRune : Nat → Nat)
    (isLetter isDigit : Nat → Bool) (root : JVal)
    (h : ∀ t ∈ collectTexts lowerRune root,
      normAlnumCount lowerRune isLetter isDigit t < minMessageRuneLen) :
    extractMessageHashes lowerRune isLetter isDigit (.parsed root) = [] := by
  have hraw : rawHashes lowerRune isLetter isDigit root = [] := by
    unfold rawHashes
    rw [List.filterMap_eq_nil_iff]
    intro t ht
    rw [normalizeText_eq_nil_of_short lowerRune isLetter isDigit t (h t ht)]
    simp
  cases root with
  | jnull => rfl
  | jbool b => rfl
  | jnum n => rfl
  | jstr s => rfl
  | jarr l => rfl
  | jobj m =>
    show (if 1 < (rawHashes lowerRune isLetter isDigit (.jobj m)).length then
        dedupGo [] (rawHashes lowerRune isLetter isDigit (.jobj m))
      else rawHashes lowerRune isLetter isDigit (.jobj m)) = []
    rw [hraw]
    rfl

/-- Degenerate original-request bytes: empty, malformed JSON, or a
top-level value that is not an object. -/
def RawReq.degenerate : RawReq → Prop
  | .empty => True
  | .malformed => True
  | .parsed (.jobj _) => False
  | .parsed _ => True

/-- Degeneracy is decidable. -/
instance : ∀ r : RawReq, Decidable r.degenerate := fun r => by
  cases r with
  | empty => exact isTrue trivial
  | malformed => exact isTrue trivial
  | parsed v =>
    cases v with
    | jnull => exact isTrue trivial
    | jbool b => exact isTrue trivial
    | jnum n => exact isTrue trivial
    | jstr s => exact isTrue trivial
    | jarr l => exact isTrue trivial
    | jobj m => exact isFalse fun hf => hf

/-- Extraction returns the empty list on degenerate input. -/
theorem extract_eq_nil_of_degenerate (lowerRune : Nat → Nat)
    (isLetter isDigit : Nat → Bool) (raw : RawReq) (h : raw.degenerate) :
    extractMessageHashes lowerRune isLetter isDigit raw = [] := by
  cases raw with
  | empty => rfl
  | malformed => rfl
  | parsed v =>
    cases v with
    | jnull => rfl
    | jbool b => rfl
    | jnum n => rfl
    | jstr s => rfl
    | jarr l => rfl
    | jobj m => exact h.elim

/-- With no extracted hashes, `Pick` neither consults nor writes the index
and lands on the round-robin fallback, regardless of the random source. -/
theorem Pick_roundRobin_of_no_hashes (rand : Nat → Nat) (lowerRune : Nat → Nat)
    (isLetter isDigit : Nat → Bool) (provider model : String) (orig : RawReq)
    (auths : List (Option Auth)) (now : Int) (st : SelectorState)
    (hfil : filterAuths auths ≠ [])
    (hext : extractMessageHashes lowerRune isLetter isDigit orig = []) :
    SmartStickySelector.Pick rand lowerRune isLetter isDigit provider model orig
        auths now st
      = pickRoundRobin (scopeOf provider model) (filterAuths auths) st := by
  unfold SmartStickySelector.Pick
  rw [if_neg hfil]
  by_cases hprov : eqFold (goTrimStr provider) "codex" = true
  · rw [if_pos hprov]
    have hch : chosenOf rand (scopeOf provider model)
        (extractMessageHashes lowerRune isLetter isDigit orig)
        (filterAuths auths) st = none := by
      rw [hext]
      unfold chosenOf
      simp
    rw [hch]
  · rw [if_neg hprov]

/-- The round-robin fallback never touches the message index. -/
theorem pickRoundRobin_idx (scope : String) (filtered : List Auth)
    (st : SelectorState) (a : Auth) (st2 : SelectorState)
    (h : pickRoundRobin scope filtered st = .ok (a, st2)) : st2.idx = st.idx := by
  unfold pickRoundRobin at h
  cases h
  rfl

/-- C6: a Codex `Pick` whose original request parses to a value in which
every message text normalizes below the 16 letters-and-digits minimum
extracts zero hashes, performs no suggestion, no random selection and no
`Record`, and returns the per-scope round-robin choice among the filtered
candidates — for every random source `rand`. -/
theorem claim_C6_short_messages_roundrobin (rand : Nat → Nat) (lowerRune : Nat → Nat)
    (isLetter isDigit : Nat → Bool) (provider model : String) (root : JVal)
    (auths : List (Option Auth)) (now : Int) (st : SelectorState)
    (_hprov : eqFold (goTrimStr provider) "codex" = true)
    (hshort : ∀ t ∈ collectTexts lowerRune root,
      normAlnumCount lowerRune isLetter isDigit t < minMessageRuneLen)
    (hfil : filterAuths auths ≠ []) :
    extractMessageHashes lowerRune isLetter isDigit (.parsed root) = [] ∧
    SmartStickySelector.Pick rand lowerRune isLetter isDigit provider model
        (.parsed root) auths now st
      = pickRoundRobin (scopeOf provider model) (filterAuths auths) st ∧
    (∀ a st2, SmartStickySelector.Pick rand lowerRune isLetter isDigit provider model
        (.parsed root) auths now st = .ok (a, st2) → st2.idx = st.idx) := by
  have hext := extract_eq_nil_of_short lowerRune isLetter isDigit root hshort
  have hpick := Pick_roundRobin_of_no_hashes rand lowerRune isLetter isDigit provider
    model (.parsed root) auths now st hfil hext
  refine ⟨hext, hpick, ?_⟩
  intro a st2 hok
  rw [hpick] at hok
  exact pickRoundRobin_idx (scopeOf provider model) (filterAuths auths) st a st2 hok

/-- Witness for C6: provider codex, one user message "hi" (2 < 16
letters/digits), two candidates with one nil entry. -/
theorem claim_C6_short_messages_roundrobin_witness :
    extractMessageHashes asciiLower asciiLetter asciiDigit
        (.parsed (.jobj [("messages", .jarr [.jobj
          [("role", .jstr (strRunes "user")),
           ("content", .jstr (strRunes "hi"))]])])) = [] ∧
    SmartStickySelector.Pick (fun _ => 0) asciiLower asciiLetter asciiDigit "codex"
        "gpt-5" (.parsed (.jobj [("messages", .jarr [.jobj
          [("role", .jstr (strRunes "user")),
           ("content", .jstr (strRunes "hi"))]])]))
        [some ⟨"a", false⟩, none, some ⟨"b", false⟩] 0 ⟨[], ⟨[], 0⟩⟩
      = pickRoundRobin (scopeOf "codex" "gpt-5")
          (filterAuths [some ⟨"a", false⟩, none, some ⟨"b", false⟩]) ⟨[], ⟨[], 0⟩⟩ ∧
    (∀ a st2, SmartStickySelector.Pick (fun _ => 0) asciiLower asciiLetter asciiDigit
        "codex" "gpt-5" (.parsed (.jobj [("messages", .jarr [.jobj
          [("role", .jstr (strRunes "user")),
           ("content", .jstr (strRunes "hi"))]])]))
        [some ⟨"a", false⟩, none, some ⟨"b", false⟩] 0 ⟨[], ⟨[], 0⟩⟩ = .ok (a, st2) →
      st2.idx = (⟨[], ⟨[], 0⟩⟩ : SelectorState).idx) :=
  claim_C6_short_messages_roundrobin (fun _ => 0) asciiLower asciiLetter asciiDigit
    "codex" "gpt-5" _ [some ⟨"a", false⟩, none, some ⟨"b", false⟩] 0 ⟨[], ⟨[], 0⟩⟩
    (by decide) (by decide) (by decide)

/-- C9: extraction is total and degrades silently: empty bytes, malformed
JSON and non-object roots all yield the empty hash list, and a `Pick` on
such a request falls through to round-robin without writing to the message
index. -/
theorem claim_C9_extraction_total (rand : Nat → Nat) (lowerRune : Nat → Nat)
    (isLetter isDigit : Nat → Bool) (provider model : String) (orig : RawReq)
    (auths : List (Option Auth)) (now : Int) (st : SelectorState)
    (hdeg : orig.degenerate) (hfil : filterAuths auths ≠ []) :
    extractMessageHashes lowerRune isLetter isDigit orig = [] ∧
    SmartStickySelector.Pick rand lowerRune isLetter isDigit provider model orig
        auths now st
      = pickRoundRobin (scopeOf provider model) (filterAuths auths) st ∧
    (∀ a st2, SmartStickySelector.Pick rand lowerRune isLetter isDigit provider model
        orig auths now st = .ok (a, st2) → st2.idx = st.idx) := by
  have hext := extract_eq_nil_of_degenerate lowerRune isLetter isDigit orig hdeg
  have hpick := Pick_roundRobin_of_no_hashes rand lowerRune isLetter isDigit provider
    model orig auths now st hfil hext
  refine ⟨hext, hpick, ?_⟩
  intro a st2 hok
  rw [hpick] at hok
  exact pickRoundRobin_idx (scopeOf provider model) (filterAuths auths) st a st2 hok

/-- Witness for C9 on malformed JSON with a codex provider. -/
theorem claim_C9_extraction_total_witness :
    extractMessageHashes asciiLower asciiLetter asciiDigit RawReq.malformed = [] ∧
    SmartStickySelector.Pick (fun _ => 0) asciiLower asciiLetter asciiDigit "codex"
        "gpt-5" RawReq.malformed [some ⟨"a", false⟩] 0 ⟨[], ⟨[], 0⟩⟩
      = pickRoundRobin (scopeOf "codex" "gpt-5") (filterAuths [some ⟨"a", false⟩])
          ⟨[], ⟨[], 0⟩⟩ ∧
    (∀ a st2, SmartStickySelector.Pick (fun _ => 0) asciiLower asciiLetter asciiDigit
        "codex" "gpt-5" RawReq.malformed [some ⟨"a", false⟩] 0 ⟨[], ⟨[], 0⟩⟩
        = .ok (a, st2) → st2.idx = (⟨[], ⟨[], 0⟩⟩ : SelectorState).idx) :=
  claim_C9_extraction_total (fun _ => 0) asciiLower asciiLetter asciiDigit "codex"
    "gpt-5" RawReq.malformed [some ⟨"a", false⟩] 0 ⟨[], ⟨[], 0⟩⟩ (by trivial) (by decide)

/-! ## Execution pipeline (part_000 lines 169-404)

`util.ResolveAutoModel`, `util.NormalizeGeminiThinkingModel` and
`util.GetProviderName` live outside the provided sources (only their caller
is present); following spec §4.1 they are abstracted as a stateless
auto-model table, a suffix normalizer with metadata of opaque type `M`, and
a static provider table, all passed as parameters.  The auth manager is a
parameter as well; byte buffers are value-semantic, so the defensive clones
of the source are identities. -/

/-- Go `http.Header` as carried on error messages. -/
abbrev GoHeaders := List (String × List String)

/-- Upstream error as seen through the pipeline's two capability checks:
`statusCode` is `some` when the error implements `StatusCode() int`, and
`headers` is `some` when it implements `Headers()` returning a non-nil map
(a nil return is observably identical to the missing capability). -/
structure UpErr where
  statusCode : Option Int
  headers : Option GoHeaders
  msg : String
  deriving Repr, DecidableEq

/-- Go `interfaces.ErrorMessage` as the execute paths construct it. -/
structure ErrorMessage where
  statusCode : Int
  errMsg : String
  addon : Option GoHeaders
  deriving Repr, DecidableEq

/-- The error synthesis block shared by the three entry points (part_000
lines 192-204, 234-246 and 280-292, 302-315): status starts at 500 and is
replaced by `StatusCode()` whenever that is positive — with no clamping to
[100, 599]; headers are cloned through. -/
def synthesizeErrorMessage (err : UpErr) : ErrorMessage :=
  { statusCode :=
      match err.statusCode with
      | some code => if 0 < code then code else 500
      | none => 500
    errMsg := err.msg
    addon := err.headers }

/-- The separator `"://"` of dynamic model routes. -/
def sepRunes : List Char := [':', '/', '/']

/-- Prefix test on character lists. -/
def beginsWith : List Char → List Char → Bool
  | [], _ => true
  | _ :: _, [] => false
  | s :: ss, c :: cs => decide (s = c) && beginsWith ss cs

/-- Go `strings.SplitN(s, "://", 2)`: split at the first occurrence of the
separator, `none` when absent. -/
def splitSep : List Char → Option (List Char × List Char)
  | [] => none
  | c :: cs =>
    if beginsWith sepRunes (c :: cs) then some ([], cs.drop 2)
    else
      match splitSep cs with
      | some (l, r) => some (c :: l, r)
      | none => none

/-- Go `BaseAPIHandler.parseDynamicModel` (part_000 lines 357-379): a name
`provider://model` is a dynamic route when the provider part is nonempty
and configured among the OpenAI-compatibility providers. -/
def parseDynamicModel (compat : List String) (modelName : String) :
    String × String × Bool :=
  match splitSep modelName.data with
  | none => ("", modelName, false)
  | some (pp, mp) =>
    if (⟨pp⟩ : String) = "" then ("", modelName, false)
    else if (⟨pp⟩ : String) ∈ compat then (⟨pp⟩, ⟨mp⟩, true)
    else ("", modelName, false)

/-- Go `BaseAPIHandler.getRequestDetails` (part_000 lines 326-355). -/
def getRequestDetails {M : Type} (resolveAutoModel : String → String)
    (normalizeGeminiThinking : String → String × M)
    (getProviderName : String → List String) (compat : List String)
    (modelName : String) : Except ErrorMessage (List String × String × M) :=
  let resolved := resolveAutoModel modelName
  let pd := parseDynamicModel compat resolved
  let nm := normalizeGeminiThinking resolved
  let providers := if pd.2.2 then [pd.1] else getProviderName nm.1
  if providers = [] then
    .error { statusCode := 400,
             errMsg := "unknown provider for model " ++ modelName, addon := none }
  else .ok (providers, if pd.2.2 then pd.2.1 else nm.1, nm.2)

/-- Go `BaseAPIHandler.ExecuteWithAuthManager` (part_000 lines 169-207):
resolve details, call the manager, and on failure synthesize the error
message; on success return the (cloned) payload. -/
def ExecuteWithAuthManager {M : Type} (resolveAutoModel : String → String)
    (normalizeGeminiThinking : String → String × M)
    (getProviderName : String → List String) (compat : List String)
    (managerExecute : List String → String → M → Except UpErr (List Nat))
    (modelName : String) : Except ErrorMessage (List Nat) :=
  match getRequestDetails resolveAutoModel normalizeGeminiThinking getProviderName
      compat modelName with
  | .error e => .error e
  | .ok (providers, normalizedModel, metadata) =>
    match managerExecute providers normalizedModel metadata with
    | .error err => .error (synthesizeErrorMessage err)
    | .ok payload => .ok payload

/-- Go `BaseAPIHandler.ExecuteCountWithAuthManager` (part_000 lines
211-249): identical shape through the count entry point. -/
def ExecuteCountWithAuthManager {M : Type} (resolveAutoModel : String → String)
    (normalizeGeminiThinking : String → String × M)
    (getProviderName : String → List String) (compat : List String)
    (managerExecuteCount : List String → String → M → Except UpErr (List Nat))
    (modelName : String) : Except ErrorMessage (List Nat) :=
  match getRequestDetails resolveAutoModel normalizeGeminiThinking getProviderName
      compat modelName with
  | .error e => .error e
  | .ok (providers, normalizedModel, metadata) =>
    match managerExecuteCount providers normalizedModel metadata with
    | .error err => .error (synthesizeErrorMessage err)
    | .ok payload => .ok payload

/-- One upstream stream chunk (`StreamChunk`). -/
structure StreamChunk where
  payload : List Nat
  err : Option UpErr
  deriving Repr, DecidableEq

/-- The consumer task of the stream path (part_000 lines 298-322): forward
cloned nonempty payload chunks until the first error chunk, which is
synthesized and ends the stream. -/
def fanOut : List StreamChunk → List (List Nat) × Option ErrorMessage
  | [] => ([], none)
  | c :: rest =>
    match c.err with
    | some e => ([], some (synthesizeErrorMessage e))
    | none =>
      if c.payload ≠ [] then
        ((fanOut rest).1.cons c.payload, (fanOut rest).2)
      else fanOut rest

/-- Go `BaseAPIHandler.ExecuteStreamWithAuthManager` (part_000 lines
253-324): a details or dispatch failure surfaces on the error channel
(`Except.error` here); otherwise the consumer's output. -/
def ExecuteStreamWithAuthManager {M : Type} (resolveAutoModel : String → String)
    (normalizeGeminiThinking : String → String × M)
    (getProviderName : String → List String) (compat : List String)
    (managerExecuteStream : List String → String → M → Except UpErr (List StreamChunk))
    (modelName : String) :
    Except ErrorMessage (List (List Nat) × Option ErrorMessage) :=
  match getRequestDetails resolveAutoModel normalizeGeminiThinking getProviderName
      compat modelName with
  | .error e => .error e
  | .ok (providers, normalizedModel, metadata) =>
    match managerExecuteStream providers normalizedModel metadata with
    | .error err => .error (synthesizeErrorMessage err)
    | .ok chunks => .ok (fanOut chunks)

/-- When resolution produces no candidates, `getRequestDetails` fails with
HTTP 400 and the original model name in the message. -/
theorem getRequestDetails_unknown {M : Type} (resolveAutoModel : String → String)
    (normalizeGeminiThinking : String → String × M)
    (getProviderName : String → List String) (compat : List String)
    (modelName : String)
    (hdyn : (parseDynamicModel compat (resolveAutoModel modelName)).2.2 = false)
    (hprov : getProviderName
      (normalizeGeminiThinking (resolveAutoModel modelName)).1 = []) :
    getRequestDetails resolveAutoModel normalizeGeminiThinking getProviderName compat
        modelName
      = .error ⟨400, "unknown provider for model " ++ modelName, none⟩ := by
  unfold getRequestDetails
  simp only [hdyn, Bool.false_eq_true, if_false, hprov, if_pos rfl]
  rfl

/-- C7: for every model name that is neither a configured dynamic route nor
known to the static provider table, each of the three entry points returns
the HTTP 400 error carrying the original model name — and the result does
not depend on the auth manager functions, which are therefore never
consulted. -/
theorem claim_C7_unknown_provider {M : Type} (resolveAutoModel : String → String)
    (normalizeGeminiThinking : String → String × M)
    (getProviderName : String → List String) (compat : List String)
    (managerExecute managerExecuteCount : List String → String → M → Except UpErr (List Nat))
    (managerExecuteStream : List String → String → M → Except UpErr (List StreamChunk))
    (modelName : String)
    (hdyn : (parseDynamicModel compat (resolveAutoModel modelName)).2.2 = false)
    (hprov : getProviderName
      (normalizeGeminiThinking (resolveAutoModel modelName)).1 = []) :
    ExecuteWithAuthManager resolveAutoModel normalizeGeminiThinking getProviderName
        compat managerExecute modelName
      = .error ⟨400, "unknown provider for model " ++ modelName, none⟩ ∧
    ExecuteCountWithAuthManager resolveAutoModel normalizeGeminiThinking
        getProviderName compat managerExecuteCount modelName
      = .error ⟨400, "unknown provider for model " ++ modelName, none⟩ ∧
    ExecuteStreamWithAuthManager resolveAutoModel normalizeGeminiThinking
        getProviderName compat managerExecuteStream modelName
      = .error ⟨400, "unknown provider for model " ++ modelName, none⟩ := by
  have hdet := getRequestDetails_unknown resolveAutoModel normalizeGeminiThinking
    getProviderName compat modelName hdyn hprov
  refine ⟨?_, ?_, ?_⟩
  · unfold ExecuteWithAuthManager
    rw [hdet]
  · unfold ExecuteCountWithAuthManager
    rw [hdet]
  · unfold ExecuteStreamWithAuthManager
    rw [hdet]

/-- Witness for C7 at an empty provider table. -/
theorem claim_C7_unknown_provider_witness :
    ExecuteWithAuthManager (fun m => m) (fun m => (m, (0 : Nat))) (fun _ => []) []
        (fun _ _ _ => .ok []) "mystery-model"
      = .error ⟨400, "unknown provider for model " ++ "mystery-model", none⟩ ∧
    ExecuteCountWithAuthManager (fun m => m) (fun m => (m, (0 : Nat))) (fun _ => []) []
        (fun _ _ _ => .ok []) "mystery-model"
      = .error ⟨400, "unknown provider for model " ++ "mystery-model", none⟩ ∧
    ExecuteStreamWithAuthManager (fun m => m) (fun m => (m, (0 : Nat))) (fun _ => []) []
        (fun _ _ _ => .ok []) "mystery-model"
      = .error ⟨400, "unknown provider for model " ++ "mystery-model", none⟩ :=
  claim_C7_unknown_provider (fun m => m) (fun m => (m, (0 : Nat))) (fun _ => []) []
    (fun _ _ _ => .ok []) (fun _ _ _ => .ok []) (fun _ _ _ => .ok []) "mystery-model"
    (by decide) rfl

/-- Counterexample to C1 as stated: an upstream error whose `StatusCode()`
is 700 — outside [100, 599] — passes through unclamped on the unary
Execute path, so the resulting `ErrorMessage.StatusCode` lies outside the
valid HTTP range. -/
theorem claim_C1_counterexample :
    ExecuteWithAuthManager (fun m => m) (fun m => (m, (0 : Nat)))
        (fun _ => ["codex"]) []
        (fun _ _ _ => .error ⟨some 700, none, "upstream failure"⟩) "gpt-5"
      = .error ⟨700, "upstream failure", none⟩ ∧
    ¬ (100 ≤ (700 : Int) ∧ (700 : Int) ≤ 599) := by
  constructor
  · rfl
  · decide

/-- C1 (amended): on the unary Execute path the synthesized record's status
equals the error's `StatusCode()` whenever that capability is present and
positive — including positive values outside [100, 599], which pass
through unclamped — and defaults to 500 when the capability is absent or
its value is not positive; headers pass through cloned. -/
theorem claim_C1_amended_status {M : Type} (resolveAutoModel : String → String)
    (normalizeGeminiThinking : String → String × M)
    (getProviderName : String → List String) (compat : List String)
    (mgrErr : UpErr) (modelName : String) (providers : List String)
    (normalizedModel : String) (metadata : M)
    (hdet : getRequestDetails resolveAutoModel normalizeGeminiThinking getProviderName
      compat modelName = .ok (providers, normalizedModel, metadata)) :
    ExecuteWithAuthManager resolveAutoModel normalizeGeminiThinking getProviderName
        compat (fun _ _ _ => .error mgrErr) modelName
      = .error (synthesizeErrorMessage mgrErr) ∧
    (∀ code, mgrErr.statusCode = some code → 0 < code →
      (synthesizeErrorMessage mgrErr).statusCode = code) ∧
    (∀ code, mgrErr.statusCode = some code → code ≤ 0 →
      (synthesizeErrorMessage mgrErr).statusCode = 500) ∧
    (mgrErr.statusCode = none → (synthesizeErrorMessage mgrErr).statusCode = 500) ∧
    (synthesizeErrorMessage mgrErr).addon = mgrErr.headers := by
  refine ⟨?_, ?_, ?_, ?_, rfl⟩
  · unfold ExecuteWithAuthManager
    rw [hdet]
  · intro code hc hpos
    unfold synthesizeErrorMessage
    rw [hc]
    simp [hpos]
  · intro code hc hneg
    unfold synthesizeErrorMessage
    rw [hc]
    have : ¬ 0 < code := by omega
    simp [this]
  · intro hc
    unfold synthesizeErrorMessage
    rw [hc]

/-- Witness for the amended C1 with a 429 upstream error carrying a
Retry-After header. -/
theorem claim_C1_amended_status_witness :
    ExecuteWithAuthManager (fun m => m) (fun m => (m, (0 : Nat)))
        (fun _ => ["codex"]) []
        (fun _ _ _ => .error ⟨some 429, some [("Retry-After", ["12"])], "rate limited"⟩)
        "gpt-5"
      = .error (synthesizeErrorMessage
          ⟨some 429, some [("Retry-After", ["12"])], "rate limited"⟩) ∧
    (∀ code, (⟨some 429, some [("Retry-After", ["12"])], "rate limited"⟩ :
        UpErr).statusCode = some code → 0 < code →
      (synthesizeErrorMessage ⟨some 429, some [("Retry-After", ["12"])],
        "rate limited"⟩).statusCode = code) ∧
    (∀ code, (⟨some 429, some [("Retry-After", ["12"])], "rate limited"⟩ :
        UpErr).statusCode = some code → code ≤ 0 →
      (synthesizeErrorMessage ⟨some 429, some [("Retry-After", ["12"])],
        "rate limited"⟩).statusCode = 500) ∧
    ((⟨some 429, some [("Retry-After", ["12"])], "rate limited"⟩ :
        UpErr).statusCode = none →
      (synthesizeErrorMessage ⟨some 429, some [("Retry-After", ["12"])],
        "rate limited"⟩).statusCode = 500) ∧
    (synthesizeErrorMessage ⟨some 429, some [("Retry-After", ["12"])],
      "rate limited"⟩).addon
      = (⟨some 429, some [("Retry-After", ["12"])], "rate limited"⟩ : UpErr).headers :=
  claim_C1_amended_status (fun m => m) (fun m => (m, (0 : Nat))) (fun _ => ["codex"])
    [] ⟨some 429, some [("Retry-After", ["12"])], "rate limited"⟩ "gpt-5"
    ["codex"] "gpt-5" 0 rfl
